import Mathlib

/-!
Shallow embedding of the `guppi` GUPPI RAW reader/writer
(`src/guppi/__init__.py`, class `GuppiHandler`).

Files are modelled as lists of bytes (`List Nat`, each byte `< 256`);
the 80-byte ASCII header cards are decoded to `List Char`.  The handler
object is modelled by `GuppiHandler` (file-path list, file index, open
handle with its position), and the `blocks()` generator by a fuel-indexed
loop returning the list of yielded `(header, data)` pairs together with
the terminating condition (`none` = clean exhaustion through `IndexError`,
`some e` = the escaping fault `e`).

The companion module `guppi.header` (class `GuppiRawHeader`,
`auto_init_GuppiRawHeader`, `to_fits`, the `blockshape` property) is not
part of the sources; those definitions are modelled from the spec and are
marked `Modelled from the spec:` in their doc comments.
-/

/-- The character `'` (single quote), used as a named constant. -/
def quoteChar : Char := Char.ofNat 39

/-- Python `str.isspace` characters relevant to `str.strip()`:
space, tab, newline, carriage return, vertical tab, form feed. -/
def isPyWS (c : Char) : Bool :=
  c.toNat = 32 || c.toNat = 9 || c.toNat = 10 || c.toNat = 13 || c.toNat = 11 || c.toNat = 12

/-- Python `str.strip()`: drop whitespace from both ends. -/
def pyStrip (l : List Char) : List Char :=
  ((l.dropWhile isPyWS).reverse.dropWhile isPyWS).reverse

/-- Python `s.split("=", 1)`: split at the first `'='`; `none` when there is
no `'='` (in which case the two-variable unpacking in the source raises). -/
def splitFirstEq : List Char → Option (List Char × List Char)
  | [] => none
  | c :: t =>
    if c = '=' then some ([], t)
    else (splitFirstEq t).map (fun kv => (c :: kv.1, kv.2))

/-- ASCII decimal digit test. -/
def isDigitC (c : Char) : Bool := 48 ≤ c.toNat && c.toNat ≤ 57

/-- Value of a list of decimal digit characters (most significant first). -/
def digitsToNat (l : List Char) : Nat :=
  l.foldl (fun a c => a * 10 + (c.toNat - 48)) 0

/-- Python `int(str)` on an already-stripped string: optional sign followed
by at least one ASCII digit (underscore grouping is not modelled). -/
def pyInt (l : List Char) : Option Int :=
  match l with
  | [] => none
  | c :: t =>
    if c = '-' then
      if t ≠ [] ∧ t.all isDigitC then some (-(digitsToNat t : Int)) else none
    else if c = '+' then
      if t ≠ [] ∧ t.all isDigitC then some ((digitsToNat t : Int)) else none
    else if (c :: t).all isDigitC then some ((digitsToNat (c :: t) : Int)) else none

/-- Optional sign prefix: returns the sign and the rest. -/
def pySign (l : List Char) : Int × List Char :=
  match l with
  | [] => (1, [])
  | c :: t => if c = '-' then (-1, t) else if c = '+' then (1, t) else (1, c :: t)

/-- Exponent tail of a float literal: optional sign then digits. -/
def pyFloatExp (mant : ℚ) (t : List Char) : Option ℚ :=
  let s := pySign t
  if s.2 ≠ [] ∧ s.2.all isDigitC then
    some (mant * (10 : ℚ) ^ (s.1 * (digitsToNat s.2 : Int)))
  else none

/-- Python `float(str)` on an already-stripped string, modelled for finite
decimal literals : `[sign] digits [. digits] [(e|E) [sign] digits]` with at
least one mantissa digit; the value is computed exactly in `ℚ`
(`inf`/`nan` spellings and binary rounding are not modelled — no claim
depends on the numeric value of a float card). -/
def pyFloat (l : List Char) : Option ℚ :=
  let s := pySign l
  let ip := s.2.takeWhile isDigitC
  let l2 := s.2.dropWhile isDigitC
  let fr : List Char × List Char :=
    match l2 with
    | [] => ([], [])
    | c :: t => if c = '.' then (t.takeWhile isDigitC, t.dropWhile isDigitC) else ([], c :: t)
  if ip.length + fr.1.length = 0 then none
  else
    let mant : ℚ := (s.1 : ℚ) * (digitsToNat (ip ++ fr.1) : ℚ) / ((10 : ℚ) ^ fr.1.length)
    match fr.2 with
    | [] => some mant
    | c :: t => if c = 'e' ∨ c = 'E' then pyFloatExp mant t else none

/-- A parsed header-card value: `int`, else `float`, else quoted string. -/
inductive HVal where
  | i : Int → HVal
  | f : ℚ → HVal
  | s : List Char → HVal
deriving DecidableEq, Repr

/-- The faults of the read/write paths, each standing for the Python
exception raised at the corresponding source line. -/
inductive GuppiError where
  /-- `EOFError` escaping `_header_entries` past the first card. -/
  | truncatedHeader : GuppiError
  /-- `ValueError` (card shorter than 80 bytes, no `'='`), `AssertionError` /
  `IndexError` (missing quotes) while typing a card value. -/
  | malformedHeaderValue : GuppiError
  /-- `RuntimeError` after a `UnicodeDecodeError` inside the header region. -/
  | unicodeFault : GuppiError
  /-- `NotImplementedError` for `nof_bits` outside `NBITS_NUMPY_INTTYPE_MAP`. -/
  | unsupportedBitDepth : GuppiError
  /-- `NotImplementedError` for `nof_polarizations` outside `[1, 2]`. -/
  | unsupportedPolarizationCount : GuppiError
  /-- `RuntimeError` for a block shape differing from the reference shape. -/
  | inconsistentBlockShape : GuppiError
  /-- `KeyError` from `NBITS_NUMPY_INTTYPE_MAP[...]` in `read_block`. -/
  | keyError : GuppiError
  /-- `numpy` view failure (odd element count). -/
  | viewError : GuppiError
  /-- `numpy` reshape failure (element count differs from `blockshape`). -/
  | reshapeError : GuppiError
  /-- `IndexError` from `open_next_file` past the last path. -/
  | indexOut : GuppiError
  /-- `StopIteration` from `next(entry_iter)` on an immediate `END` card. -/
  | stopIteration : GuppiError
  /-- Fuel exhaustion of the loop model (never reached with enough fuel). -/
  | outOfFuel : GuppiError
deriving DecidableEq, Repr

/-- Modelled from the spec: the decoded GUPPI RAW header of the missing
`guppi.header` module, restricted to the fields the handler reads. -/
structure GuppiRawHeader where
  telescope : List Char
  directio : Bool
  nof_bits : Nat
  nof_polarizations : Nat
  nof_antennas : Nat
  observed_nof_channels : Nat
  blocksize : Nat
deriving DecidableEq, Repr

/-- Modelled from the spec: `blockshape` =
(antennas, channels-per-antenna, time, polarizations), where the total
complex sample count is `blocksize * 8 / (nof_bits * 2)`, channels per
antenna is `observed_nof_channels / nof_antennas`, and the remainder goes
to the time axis. -/
def GuppiRawHeader.blockshape (h : GuppiRawHeader) : Nat × Nat × Nat × Nat :=
  let A := h.nof_antennas
  let F := h.observed_nof_channels / A
  let P := h.nof_polarizations
  let total := h.blocksize * 8 / (h.nof_bits * 2)
  (A, F, total / (A * F * P), P)

def kTELESCOP : List Char := ['T', 'E', 'L', 'E', 'S', 'C', 'O', 'P']
def kDIRECTIO : List Char := ['D', 'I', 'R', 'E', 'C', 'T', 'I', 'O']
def kNBITS : List Char := ['N', 'B', 'I', 'T', 'S']
def kNPOL : List Char := ['N', 'P', 'O', 'L']
def kNANTS : List Char := ['N', 'A', 'N', 'T', 'S']
def kOBSNCHAN : List Char := ['O', 'B', 'S', 'N', 'C', 'H', 'A', 'N']
def kBLOCSIZE : List Char := ['B', 'L', 'O', 'C', 'S', 'I', 'Z', 'E']

/-- First-match lookup in the (most-recent-first) entry list, matching the
last-write-wins behaviour of the Python `dict`. -/
def mlookup : List (List Char × HVal) → List Char → Option HVal
  | [], _ => none
  | kv :: t, key => if kv.1 = key then some kv.2 else mlookup t key

/-- Integer-valued header entry with a default. -/
def getNatEntry (m : List (List Char × HVal)) (key : List Char) (d : Nat) : Nat :=
  match mlookup m key with
  | some (.i n) => n.toNat
  | _ => d

/-- Modelled from the spec: `auto_init_GuppiRawHeader` of the missing
`guppi.header` module — build the header from the parsed entries
(`directio` is false by default, the counts default to 0 when absent;
the telescope-variant dispatch does not change these shared fields). -/
def auto_init_GuppiRawHeader (m : List (List Char × HVal)) : GuppiRawHeader :=
  { telescope := match mlookup m kTELESCOP with | some (.s v) => v | _ => []
    directio := getNatEntry m kDIRECTIO 0 != 0
    nof_bits := getNatEntry m kNBITS 0
    nof_polarizations := getNatEntry m kNPOL 0
    nof_antennas := getNatEntry m kNANTS 0
    observed_nof_channels := getNatEntry m kOBSNCHAN 0
    blocksize := getNatEntry m kBLOCSIZE 0 }

/-- The handler: resolved file paths (by content), current file index,
and the open handle's position (`none` = no open handle). -/
structure GuppiHandler where
  guppi_filepaths : List (List Nat)
  guppi_file_index : Nat
  guppi_file_handle : Option Nat
deriving DecidableEq, Repr

/-- Content of the currently indexed file. -/
def GuppiHandler.curFile (s : GuppiHandler) : List Nat :=
  s.guppi_filepaths.getD s.guppi_file_index []

/-- `tell()` of the open handle. -/
def GuppiHandler.pos (s : GuppiHandler) : Nat :=
  s.guppi_file_handle.getD 0

/-- `handle.read(n)`: up to `n` bytes from the current position. -/
def GuppiHandler.read (s : GuppiHandler) (n : Nat) : List Nat × GuppiHandler :=
  let bs := (s.curFile.drop s.pos).take n
  (bs, { s with guppi_file_handle := some (s.pos + bs.length) })

/-- `handle.seek(n, 1)`: advance the position by `n`. -/
def GuppiHandler.seek (s : GuppiHandler) (n : Nat) : GuppiHandler :=
  { s with guppi_file_handle := some (s.pos + n) }

/-- `_seek_align_directio`: skip to the next 512-byte boundary. -/
def GuppiHandler.seek_align_directio (s : GuppiHandler) : GuppiHandler :=
  let remainder := s.pos % 512
  if remainder = 0 then s else s.seek (512 - remainder)

/-- `open_next_file`: close the open handle (advancing the index), then
open the next path; `none` models the `IndexError` past the last path. -/
def GuppiHandler.open_next_file (s : GuppiHandler) : Option GuppiHandler :=
  let s1 := if s.guppi_file_handle.isSome
    then { s with guppi_file_index := s.guppi_file_index + 1, guppi_file_handle := none }
    else s
  if s1.guppi_file_index < s1.guppi_filepaths.length
  then some { s1 with guppi_file_handle := some 0 } else none

/-- Result of `_read_header_entry`: end of file, a fatal fault, or a
decoded 80-character card with the advanced handler. -/
inductive EntryRes where
  | eof : EntryRes
  | fatal : GuppiError → EntryRes
  | entry : List Char → GuppiHandler → EntryRes
deriving Repr

/-- `_read_header_entry`: read 80 bytes, decode (ASCII model of
`bytes.decode()`), raise `EOFError` on 0 characters and `ValueError`
under 80. -/
def GuppiHandler.read_header_entry (s : GuppiHandler) : EntryRes :=
  let r := s.read 80
  if r.1.all (fun b => b < 128) then
    if r.1.length = 0 then .eof
    else if r.1.length < 80 then .fatal .malformedHeaderValue
    else .entry (r.1.map Char.ofNat) r.2
  else .fatal .unicodeFault

/-- Card-value typing of `_header_entries`: `int(value)`, else
`float(value)`, else assert the enclosing single quotes and strip them. -/
def parse_header_value (v : List Char) : Except GuppiError HVal :=
  match pyInt v with
  | some n => .ok (.i n)
  | none =>
    match pyFloat v with
    | some q => .ok (.f q)
    | none =>
      if v.head? = some quoteChar ∧ v.getLast? = some quoteChar then
        .ok (.s (pyStrip (v.drop 1).dropLast))
      else .error .malformedHeaderValue

/-- One card of `_header_entries`: split at the first `'='`, strip key and
value, type the value. -/
def parse_header_entry (chars : List Char) : Except GuppiError (List Char × HVal) :=
  match splitFirstEq chars with
  | none => .error .malformedHeaderValue
  | some kv =>
    match parse_header_value (pyStrip kv.2) with
    | .error e => .error e
    | .ok hv => .ok (pyStrip kv.1, hv)

/-- The `END` sentinel card: `"END"` padded with spaces to 80 characters. -/
def endCard : List Char := ['E', 'N', 'D'] ++ List.replicate 77 ' '

/-- The `_header_entries` loop past its first card: accumulate entries
(most recent first) until the `END` card.  `EOFError` here escapes
(`truncatedHeader`); the fuel only bounds the card count. -/
def GuppiHandler.header_entries :
    Nat → GuppiHandler → List (List Char × HVal) →
    Except GuppiError (List (List Char × HVal) × GuppiHandler)
  | 0, _, _ => .error .outOfFuel
  | fuel + 1, s, acc =>
    match s.read_header_entry with
    | .eof => .error .truncatedHeader
    | .fatal e => .error e
    | .entry c s' =>
      if c = endCard then .ok (acc, s')
      else
        match parse_header_entry c with
        | .error e => .error e
        | .ok kv => GuppiHandler.header_entries fuel s' (kv :: acc)

/-- `read_next_header`: read the first card (rolling to the next file on a
clean end of file — `IndexError` when no file remains), collect the
remaining entries, build the header, and align when `directio`. -/
def GuppiHandler.read_next_header (s : GuppiHandler) :
    Except GuppiError (GuppiRawHeader × GuppiHandler) :=
  let res : Except GuppiError (List (List Char × HVal) × GuppiHandler) :=
    match s.read_header_entry with
    | .eof =>
      match s.open_next_file with
      | none => .error .indexOut
      | some s2 => GuppiHandler.header_entries (s2.curFile.length + 1) s2 []
    | .fatal e => .error e
    | .entry c s' =>
      if c = endCard then .error .stopIteration
      else
        match parse_header_entry c with
        | .error e => .error e
        | .ok kv => GuppiHandler.header_entries (s'.curFile.length + 1) s' [kv]
  match res with
  | .error e => .error e
  | .ok ms =>
    let h := auto_init_GuppiRawHeader ms.1
    .ok (h, if h.directio then ms.2.seek_align_directio else ms.2)

/-- `validate_header`: `nof_bits` must be a key of
`NBITS_NUMPY_INTTYPE_MAP = {4: int8, 8: int8}`, `nof_polarizations`
must be in `[1, 2]`. -/
def GuppiHandler.validate_header (h : GuppiRawHeader) : Option GuppiError :=
  if ¬(h.nof_bits = 4 ∨ h.nof_bits = 8) then some .unsupportedBitDepth
  else if ¬(h.nof_polarizations = 1 ∨ h.nof_polarizations = 2) then
    some .unsupportedPolarizationCount
  else none

/-- A raw byte as a signed `int8` value (`numpy.fromfile` with `int8`). -/
def byteToInt8 (b : Nat) : Int :=
  if b % 256 < 128 then ((b % 256 : Nat) : Int) else ((b % 256 : Nat) : Int) - 256

/-- `int8` wrap-around of an integer (two's complement, 8 bits). -/
def wrap8 (x : Int) : Int := (x + 128) % 256 - 128

/-- Arithmetic right shift by 4 of an `int8` value (`>> 4`). -/
def shift4 (x : Int) : Int := Int.fdiv x 16

/-- `numpy.repeat(2)`: duplicate every element in place. -/
def npRepeat2 (l : List Int) : List Int := l.flatMap fun x => [x, x]

/-- The two strided in-place assignments `l[0::2] = f(l[0::2])` and
`l[1::2] = g(l[1::2])`: apply `f` at even and `g` at odd positions. -/
def strideMapPair (f g : Int → Int) : List Int → List Int
  | [] => []
  | [a] => [f a]
  | a :: b :: t => f a :: g b :: strideMapPair f g t

/-- The 4-bit unpacking of `read_block`: `repeat(2)`, then
`l[0::2] >>= 4` and `l[1::2] = l[1::2] << 4 >> 4` in `int8` arithmetic. -/
def decode4 (l : List Int) : List Int :=
  strideMapPair shift4 (fun x => shift4 (wrap8 (x * 16))) (npRepeat2 l)

/-- `numpy` view of a flat component list as complex (re, im) pairs;
`none` models the view failure on an odd count. -/
def pairUp : List Int → Option (List (Int × Int))
  | [] => some []
  | [_] => none
  | a :: b :: t => (pairUp t).map (fun ps => (a, b) :: ps)

/-- Product of the four `blockshape` axes. -/
def shapeProd : Nat × Nat × Nat × Nat → Nat
  | (a, b, c, d) => a * b * c * d

/-- `read_block`: `blocksize` `int8` elements from the file, the
`directio` alignment, the 4-bit unpacking when `nof_bits == 4`, the
complex view and the reshape to `blockshape` (kept flat here: the reshape
only checks the count).  The `astype` cast is value-preserving for the
integer paths exercised by the handler and is not re-modelled. -/
def GuppiHandler.read_block (s : GuppiHandler) (h : GuppiRawHeader) :
    Except GuppiError (List (Int × Int) × GuppiHandler) :=
  if ¬(h.nof_bits = 4 ∨ h.nof_bits = 8) then .error .keyError
  else
    let r := s.read h.blocksize
    let s2 := if h.directio then r.2.seek_align_directio else r.2
    let vals := r.1.map byteToInt8
    let vals := if h.nof_bits = 4 then decode4 vals else vals
    match pairUp vals with
    | none => .error .viewError
    | some ps =>
      if ps.length = shapeProd h.blockshape then .ok (ps, s2)
      else .error .reshapeError

/-- The `while True` body of `blocks()`: read a header (stopping cleanly on
`IndexError`), validate the first block, check later blocks against the
reference shape, read the data, yield, repeat. -/
def GuppiHandler.blocksLoop :
    Nat → GuppiHandler → Option (Nat × Nat × Nat × Nat) →
    List (GuppiRawHeader × List (Int × Int)) →
    List (GuppiRawHeader × List (Int × Int)) × Option GuppiError
  | 0, _, _, acc => (acc.reverse, some .outOfFuel)
  | fuel + 1, s, ref, acc =>
    match s.read_next_header with
    | .error .indexOut => (acc.reverse, none)
    | .error e => (acc.reverse, some e)
    | .ok hs =>
      let h := hs.1
      let check : Option GuppiError :=
        match ref with
        | none => GuppiHandler.validate_header h
        | some r => if h.blockshape ≠ r then some .inconsistentBlockShape else none
      match check with
      | some e => (acc.reverse, some e)
      | none =>
        match hs.2.read_block h with
        | .error e => (acc.reverse, some e)
        | .ok ds =>
          GuppiHandler.blocksLoop fuel ds.2 (some (ref.getD h.blockshape)) ((h, ds.1) :: acc)

/-- `blocks()`: reset the sequencer (index 0, no handle), open the first
file, and run the yield loop. -/
def GuppiHandler.blocks (s : GuppiHandler) (fuel : Nat) :
    List (GuppiRawHeader × List (Int × Int)) × Option GuppiError :=
  let s0 : GuppiHandler := { s with guppi_file_index := 0, guppi_file_handle := none }
  match s0.open_next_file with
  | none => ([], some .indexOut)
  | some s1 => GuppiHandler.blocksLoop fuel s1 none []

/-- A `numpy` data block handed to `write_to_file`: the 4-axis shape, the
per-component width in bytes, and the flat scalar components in C order
(for a complex structured dtype the re/im components interleave, so
`comps.length = 2 * A*F*T*P`; for the plain `int8` nibble-packed blocks of
the 4-bit path `comps.length = A*F*T*P`). -/
structure DataBlock where
  A : Nat
  F : Nat
  T : Nat
  P : Nat
  itemBytes : Nat
  comps : List Int
deriving DecidableEq, Repr

/-- Little-endian two's-complement encoding of one scalar component
(`numpy.ndarray.tobytes`). -/
def encComp (w : Nat) (x : Int) : List Nat :=
  (List.range w).map fun k => ((x % ((2 : Int) ^ (8 * w))).toNat / 2 ^ (8 * k)) % 256

/-- `datablock.tobytes()`. -/
def dataBytes (db : DataBlock) : List Nat :=
  db.comps.flatMap (encComp db.itemBytes)

/-- The header-field derivation of `write_to_file`: channels, antennas,
polarizations, `blocksize` and `nof_bits` from the array shape and byte
length. -/
def GuppiHandler.write_header_fields (header : GuppiRawHeader) (db : DataBlock) :
    GuppiRawHeader :=
  let n := (dataBytes db).length
  { header with
    observed_nof_channels := db.A * db.F
    nof_antennas := db.A
    nof_polarizations := db.P
    blocksize := n
    nof_bits := n * 8 / (db.A * db.F * db.T * db.P * 2) }

/-- Decimal digits of `n`, least significant first (`[]` for 0). -/
def natDigitsRev (n : Nat) : List Char :=
  if h : n = 0 then []
  else Nat.digitChar (n % 10) :: natDigitsRev (n / 10)
termination_by n
decreasing_by exact Nat.div_lt_self (Nat.pos_of_ne_zero h) (by omega)

/-- Decimal rendering of a natural number. -/
def renderNat (n : Nat) : List Char :=
  if n = 0 then ['0'] else (natDigitsRev n).reverse

/-- Pad a character list on the right to length `n`. -/
def padTo (n : Nat) (c : Char) (l : List Char) : List Char :=
  l ++ List.replicate (n - l.length) c

/-- One 80-character header card `KEY     = value` (key padded to 8). -/
def mkCard (key val : List Char) : List Char :=
  padTo 80 ' ' (padTo 8 ' ' key ++ '=' :: ' ' :: val)

/-- Modelled from the spec: `GuppiRawHeader.to_fits` of the missing
`guppi.header` module — one 80-byte card per field (numbers in decimal,
strings single-quoted) and a trailing `END` card. -/
def GuppiRawHeader.to_fits (h : GuppiRawHeader) : List Char :=
  mkCard kTELESCOP (quoteChar :: (h.telescope ++ [quoteChar])) ++
  mkCard kDIRECTIO (renderNat (if h.directio then 1 else 0)) ++
  mkCard kNBITS (renderNat h.nof_bits) ++
  mkCard kNPOL (renderNat h.nof_polarizations) ++
  mkCard kNANTS (renderNat h.nof_antennas) ++
  mkCard kOBSNCHAN (renderNat h.observed_nof_channels) ++
  mkCard kBLOCSIZE (renderNat h.blocksize) ++
  endCard

/-- Length of the `*`/space filler written after a region of `n` bytes in
`directio` mode: up to the next multiple of 512. -/
def padLen512 (n : Nat) : Nat := (n + 511) / 512 * 512 - n

/-- The bytes one `write_to_file` call appends: derived header as FITS
text, `'*'` filler to 512 when `directio`, the data bytes, space filler to
512 when `directio`. -/
def GuppiHandler.write_chunk (header : GuppiRawHeader) (db : DataBlock) : List Nat :=
  let h := GuppiHandler.write_header_fields header db
  let hb := h.to_fits.map Char.toNat
  let bytes := dataBytes db
  (hb ++ (if h.directio then List.replicate (padLen512 hb.length) 42 else []))
    ++ bytes ++ (if h.directio then List.replicate (padLen512 bytes.length) 32 else [])

/-- `write_to_file` with mode `"ab"`: append the chunk to the existing
file content (`"wb"` is the `existing = []` case). -/
def GuppiHandler.write_to_file (header : GuppiRawHeader) (db : DataBlock)
    (existing : List Nat) : List Nat :=
  existing ++ GuppiHandler.write_chunk header db

/-- Content of one file holding the listed blocks, written in order. -/
def writeFileContents (header : GuppiRawHeader) (dbs : List DataBlock) : List Nat :=
  (dbs.map (GuppiHandler.write_chunk header)).flatten

/-- Neither end of the list is Python whitespace. -/
def noEdgeWS (l : List Char) : Bool :=
  (l.head?.all fun c => !(isPyWS c)) && (l.getLast?.all fun c => !(isPyWS c))

/-- All characters are ASCII (decode to themselves byte-wise). -/
def asciiChars (l : List Char) : Bool := l.all fun c => c.toNat < 128

/-- The handler with its position moved forward by `n` bytes. -/
def advance (s : GuppiHandler) (n : Nat) : GuppiHandler :=
  { s with guppi_file_handle := some (s.pos + n) }

/-- The unread suffix of the current file. -/
def dropCur (s : GuppiHandler) : List Nat := s.curFile.drop s.pos

/-- The handler after rolling to the start of the next file. -/
def rollState (s : GuppiHandler) : GuppiHandler :=
  { s with guppi_file_index := s.guppi_file_index + 1, guppi_file_handle := some 0 }

/-- Well-formedness of a header for the FITS round trip: the telescope
string is ASCII without whitespace at its ends and short enough for a
card, and the numeric fields fit in a card's value area. -/
def HWf (h : GuppiRawHeader) : Prop :=
  noEdgeWS h.telescope = true ∧ asciiChars h.telescope = true ∧
  h.telescope.length ≤ 68 ∧
  h.nof_bits < 10 ^ 20 ∧ h.nof_polarizations < 10 ^ 20 ∧
  h.nof_antennas < 10 ^ 20 ∧ h.observed_nof_channels < 10 ^ 20 ∧
  h.blocksize < 10 ^ 20

instance (h : GuppiRawHeader) : Decidable (HWf h) := by
  unfold HWf
  infer_instance

/-- The header-entry list (most recent first) that parsing `to_fits h`
produces. -/
def headerEntriesOf (h : GuppiRawHeader) : List (List Char × HVal) :=
  [(kBLOCSIZE, .i h.blocksize), (kOBSNCHAN, .i h.observed_nof_channels),
   (kNANTS, .i h.nof_antennas), (kNPOL, .i h.nof_polarizations),
   (kNBITS, .i h.nof_bits), ( kDIRECTIO, .i ((if h.directio then 1 else 0 : Nat) : Int)),
   (kTELESCOP, .s h.telescope)]

/-- A header card described by its key, rendered value text, and the
`HVal` the value text parses back to. -/
structure CardD where
  key : List Char
  val : List Char
  hv : HVal

/-- The conditions under which a described card round-trips through
`parse_header_entry`. -/
def cardOK (c : CardD) : Prop :=
  noEdgeWS c.key = true ∧ '=' ∉ c.key ∧ c.key.length ≤ 8 ∧ asciiChars c.key = true ∧
  noEdgeWS c.val = true ∧ c.val.length ≤ 70 ∧ asciiChars c.val = true ∧
  parse_header_value c.val = .ok c.hv

/-- The `numpy` data block of complex 8-bit samples `ps` with shape
`(A, F, T, P)`: structured dtype `(re int8, im int8)`, one byte per
component, components interleaved in C order. -/
def mkDb8 (A F T P : Nat) (ps : List (Int × Int)) : DataBlock :=
  { A := A, F := F, T := T, P := P, itemBytes := 1,
    comps := ps.flatMap fun p => [p.1, p.2] }

/-- The complex samples a data block holds (its components re-paired). -/
def expected8 (db : DataBlock) : List (Int × Int) := (pairUp db.comps).getD []

/-- Every component fits in a signed 8-bit integer. -/
def pairsRange8 (ps : List (Int × Int)) : Prop :=
  ∀ p ∈ ps, -128 ≤ p.1 ∧ p.1 < 128 ∧ -128 ≤ p.2 ∧ p.2 < 128

/-- Nibble packing of the 4-bit test path: `(real << 4) + (imag & 0xF)`
as a Python integer (in range for `int8` when both nibbles are in
`[-8, 7]`). -/
def pack4 (p : Int × Int) : Int := p.1 * 16 + p.2 % 16

/-- The plain `int8` array holding nibble-packed complex samples `ps`
with shape `(A, F, T, P)`: one byte per element. -/
def mkDb4 (A F T P : Nat) (ps : List (Int × Int)) : DataBlock :=
  { A := A, F := F, T := T, P := P, itemBytes := 1, comps := ps.map pack4 }

/-- The complex samples the 4-bit decode path recovers from a block. -/
def expected4 (db : DataBlock) : List (Int × Int) := (pairUp (decode4 db.comps)).getD []

/-- Every component is a signed 4-bit value. -/
def pairsRange4 (ps : List (Int × Int)) : Prop :=
  ∀ p ∈ ps, -8 ≤ p.1 ∧ p.1 ≤ 7 ∧ -8 ≤ p.2 ∧ p.2 ≤ 7

/-- The `numpy` data block of complex 16-bit samples `ps` with shape
`(A, F, T, P)`: structured dtype `(re int16, im int16)`, two bytes per
component. -/
def mkDb16 (A F T P : Nat) (ps : List (Int × Int)) : DataBlock :=
  { A := A, F := F, T := T, P := P, itemBytes := 2,
    comps := ps.flatMap fun p => [p.1, p.2] }

/-- The card descriptors of `to_fits h`, in file order. -/
def cardsOf (h : GuppiRawHeader) : List CardD :=
  [⟨kTELESCOP, quoteChar :: (h.telescope ++ [quoteChar]), .s h.telescope⟩,
   ⟨ kDIRECTIO, renderNat (if h.directio then 1 else 0),
     .i ((if h.directio then 1 else 0 : Nat) : Int)⟩,
   ⟨kNBITS, renderNat h.nof_bits, .i h.nof_bits⟩,
   ⟨kNPOL, renderNat h.nof_polarizations, .i h.nof_polarizations⟩,
   ⟨kNANTS, renderNat h.nof_antennas, .i h.nof_antennas⟩,
   ⟨kOBSNCHAN, renderNat h.observed_nof_channels, .i h.observed_nof_channels⟩,
   ⟨kBLOCSIZE, renderNat h.blocksize, .i h.blocksize⟩]

/-! ### Digits and decimal rendering -/

theorem digitChar_toNat : ∀ d, d < 10 → (Nat.digitChar d).toNat = 48 + d := by decide

theorem isDigitC_digitChar : ∀ d, d < 10 → isDigitC (Nat.digitChar d) = true := by decide

theorem natDigitsRev_all (n : Nat) : (natDigitsRev n).all isDigitC = true := by
  induction n using Nat.strong_induction_on with
  | _ n ih =>
    rw [natDigitsRev]
    split
    · rfl
    · rename_i h
      rw [List.all_cons, isDigitC_digitChar _ (Nat.mod_lt _ (by omega)),
        ih (n / 10) (Nat.div_lt_self (Nat.pos_of_ne_zero h) (by omega))]
      rfl

theorem digitsToNat_append_single (l : List Char) (c : Char) :
    digitsToNat (l ++ [c]) = digitsToNat l * 10 + (c.toNat - 48) := by
  unfold digitsToNat
  rw [List.foldl_append]
  rfl

theorem digitsToNat_natDigitsRev (n : Nat) : digitsToNat (natDigitsRev n).reverse = n := by
  induction n using Nat.strong_induction_on with
  | _ n ih =>
    rw [natDigitsRev]
    split
    · rename_i h
      subst h
      rfl
    · rename_i h
      rw [List.reverse_cons, digitsToNat_append_single,
        ih (n / 10) (Nat.div_lt_self (Nat.pos_of_ne_zero h) (by omega)),
        digitChar_toNat _ (Nat.mod_lt _ (by omega))]
      omega

theorem renderNat_all (n : Nat) : (renderNat n).all isDigitC = true := by
  unfold renderNat
  split
  · decide
  · rw [List.all_reverse]
    exact natDigitsRev_all n

theorem renderNat_ne_nil (n : Nat) : renderNat n ≠ [] := by
  unfold renderNat
  split
  · simp
  · rename_i h
    intro e
    rw [List.reverse_eq_nil_iff] at e
    rw [natDigitsRev] at e
    simp [h] at e

theorem digitsToNat_renderNat (n : Nat) : digitsToNat (renderNat n) = n := by
  unfold renderNat
  split
  · rename_i h
    subst h
    rfl
  · exact digitsToNat_natDigitsRev n

theorem isDigitC_toNat {c : Char} (h : isDigitC c = true) : 48 ≤ c.toNat ∧ c.toNat ≤ 57 := by
  unfold isDigitC at h
  simp at h
  omega

theorem pyInt_digits (l : List Char) (hne : l ≠ []) (hall : l.all isDigitC = true) :
    pyInt l = some ((digitsToNat l : Nat) : Int) := by
  cases l with
  | nil => exact absurd rfl hne
  | cons c t =>
    have hc : isDigitC c = true := by
      rw [List.all_cons] at hall
      exact (Bool.and_eq_true_iff.mp hall).1
    have h1 : c ≠ '-' := by
      intro e
      subst e
      exact absurd hc (by decide)
    have h2 : c ≠ '+' := by
      intro e
      subst e
      exact absurd hc (by decide)
    simp [pyInt, h1, h2, hall]

theorem pyInt_renderNat (n : Nat) : pyInt (renderNat n) = some ((n : Nat) : Int) := by
  rw [pyInt_digits _ (renderNat_ne_nil n) (renderNat_all n), digitsToNat_renderNat]

theorem natDigitsRev_length_le : ∀ k n, n < 10 ^ k → (natDigitsRev n).length ≤ k := by
  intro k
  induction k with
  | zero =>
    intro n h
    interval_cases n
    simp [natDigitsRev]
  | succ k ih =>
    intro n h
    rw [natDigitsRev]
    split
    · simp
    · rename_i hn
      have : n / 10 < 10 ^ k := by
        rw [Nat.div_lt_iff_lt_mul (by omega)]
        calc n < 10 ^ (k + 1) := h
        _ = 10 ^ k * 10 := by ring
      simpa using Nat.succ_le_succ (ih (n / 10) this)

theorem renderNat_length_le {k n : Nat} (hk : 1 ≤ k) (h : n < 10 ^ k) :
    (renderNat n).length ≤ k := by
  unfold renderNat
  split
  · simpa using hk
  · rw [List.length_reverse]
    exact natDigitsRev_length_le k n h

/-! ### Stripping and splitting -/

theorem dropWhile_replicate_space (n : Nat) (l : List Char) :
    (List.replicate n ' ' ++ l).dropWhile isPyWS = l.dropWhile isPyWS := by
  have hws : isPyWS ' ' = true := by decide
  induction n with
  | zero => simp
  | succ k ih => simp [List.replicate_succ, List.dropWhile_cons, hws, ih]

theorem dropWhile_head_false {p : Char → Bool} {l : List Char}
    (h : ∀ c, l.head? = some c → p c = false) : l.dropWhile p = l := by
  cases l with
  | nil => rfl
  | cons c t => simp [List.dropWhile_cons, h c rfl]

theorem pyStrip_pad (a b : Nat) (l : List Char) (h : noEdgeWS l = true) :
    pyStrip (List.replicate a ' ' ++ l ++ List.replicate b ' ') = l := by
  unfold pyStrip
  cases l with
  | nil =>
    have h0 : (List.replicate b ' ').dropWhile isPyWS = [] := by
      have := dropWhile_replicate_space b ([] : List Char)
      simpa using this
    rw [List.append_nil, dropWhile_replicate_space, h0]
    simp
  | cons c t =>
    have hhead : isPyWS c = false := by
      unfold noEdgeWS at h
      rw [Bool.and_eq_true_iff] at h
      simpa using h.1
    have hlast : ∀ d, (c :: t).getLast? = some d → isPyWS d = false := by
      intro d hd
      unfold noEdgeWS at h
      rw [Bool.and_eq_true_iff] at h
      have := h.2
      rw [hd] at this
      simpa using this
    rw [List.append_assoc, dropWhile_replicate_space]
    have h1 : ((c :: t) ++ List.replicate b ' ').dropWhile isPyWS
        = (c :: t) ++ List.replicate b ' ' := by
      apply dropWhile_head_false
      intro d hd
      simp at hd
      subst hd
      exact hhead
    rw [h1, List.reverse_append, List.reverse_replicate, dropWhile_replicate_space]
    have h2 : (c :: t).reverse.dropWhile isPyWS = (c :: t).reverse := by
      apply dropWhile_head_false
      intro d hd
      rw [List.head?_reverse] at hd
      exact hlast d hd
    rw [h2, List.reverse_reverse]

theorem pyStrip_noEdge (l : List Char) (h : noEdgeWS l = true) : pyStrip l = l := by
  have := pyStrip_pad 0 0 l h
  simpa using this

theorem splitFirstEq_append (K V : List Char) (h : '=' ∉ K) :
    splitFirstEq (K ++ '=' :: V) = some (K, V) := by
  induction K with
  | nil => simp [splitFirstEq]
  | cons c t ih =>
    have hc : c ≠ '=' := by
      intro e
      exact h (e ▸ List.mem_cons_self c t)
    rw [List.cons_append]
    simp only [splitFirstEq]
    rw [if_neg hc, ih (fun hm => h (List.mem_cons_of_mem _ hm))]
    rfl

/-! ### Card-level parsing -/

theorem pyStrip_pad_right (b : Nat) (l : List Char) (h : noEdgeWS l = true) :
    pyStrip (l ++ List.replicate b ' ') = l := by
  have := pyStrip_pad 0 b l h
  simpa using this

theorem pyStrip_space_pad (b : Nat) (l : List Char) (h : noEdgeWS l = true) :
    pyStrip (' ' :: (l ++ List.replicate b ' ')) = l := by
  have := pyStrip_pad 1 b l h
  simpa [List.replicate_succ] using this

theorem isPyWS_of_digit {c : Char} (h : isDigitC c = true) : isPyWS c = false := by
  have hb := isDigitC_toNat h
  unfold isPyWS
  simp only [Bool.or_eq_false_iff, decide_eq_false_iff_not]
  omega

theorem all_map_list {α β : Type} (f : α → β) (p : β → Bool) (l : List α) :
    (l.map f).all p = l.all (fun c => p (f c)) := by
  induction l with
  | nil => rfl
  | cons a t ih => simp [ih]

theorem all_head {p : Char → Bool} {l : List Char} (hall : l.all p = true) :
    ∀ c, l.head? = some c → p c = true := by
  intro c hc
  rw [List.all_eq_true] at hall
  cases l with
  | nil => simp at hc
  | cons a t =>
    simp at hc
    subst hc
    exact hall a (by simp)

theorem all_getLast {p : Char → Bool} {l : List Char} (hall : l.all p = true) :
    ∀ c, l.getLast? = some c → p c = true := by
  intro c hc
  rw [List.all_eq_true] at hall
  exact hall c (List.mem_of_mem_getLast? hc)

theorem noEdgeWS_of_all_digit {l : List Char} (hall : l.all isDigitC = true) :
    noEdgeWS l = true := by
  unfold noEdgeWS
  rw [Bool.and_eq_true_iff]
  constructor
  · cases hh : l.head? with
    | none => simp
    | some c => simp [isPyWS_of_digit (all_head hall c hh)]
  · cases hh : l.getLast? with
    | none => simp
    | some c => simp [isPyWS_of_digit (all_getLast hall c hh)]

theorem parse_header_value_renderNat (n : Nat) :
    parse_header_value (renderNat n) = .ok (.i (n : Int)) := by
  unfold parse_header_value
  rw [pyInt_renderNat]

theorem pyInt_quote_head (t : List Char) : pyInt (quoteChar :: t) = none := by
  have h1 : quoteChar ≠ '-' := by decide
  have h2 : quoteChar ≠ '+' := by decide
  have h3 : isDigitC quoteChar = false := by decide
  simp [pyInt, h1, h2, h3]

theorem pyFloat_quote_head (t : List Char) : pyFloat (quoteChar :: t) = none := by
  have h1 : quoteChar ≠ '-' := by decide
  have h2 : quoteChar ≠ '+' := by decide
  have h3 : isDigitC quoteChar = false := by decide
  have h4 : quoteChar ≠ '.' := by decide
  simp [pyFloat, pySign, List.takeWhile_cons, List.dropWhile_cons, h1, h2, h3, h4]

theorem parse_header_value_quoted (tel : List Char) (h : noEdgeWS tel = true) :
    parse_header_value (quoteChar :: (tel ++ [quoteChar])) = .ok (.s tel) := by
  unfold parse_header_value
  rw [pyInt_quote_head, pyFloat_quote_head]
  have hh : (quoteChar :: (tel ++ [quoteChar])).head? = some quoteChar := rfl
  have hl : (quoteChar :: (tel ++ [quoteChar])).getLast? = some quoteChar := by
    rw [← List.cons_append, List.getLast?_concat]
  rw [if_pos ⟨hh, hl⟩]
  simp only [List.drop_succ_cons, List.drop_zero, List.dropLast_concat]
  rw [pyStrip_noEdge tel h]

theorem padTo_length {n : Nat} {l : List Char} (c : Char) (h : l.length ≤ n) :
    (padTo n c l).length = n := by
  unfold padTo
  simp
  omega

theorem mkCard_eq_split (key val : List Char) :
    mkCard key val = (key ++ List.replicate (8 - key.length) ' ') ++
      '=' :: (' ' :: (val ++ List.replicate
        (80 - (padTo 8 ' ' key ++ '=' :: ' ' :: val).length) ' ')) := by
  unfold mkCard padTo
  simp

theorem parse_mkCard (key val : List Char) (hv : HVal)
    (hkey : noEdgeWS key = true) (hkeyEq : '=' ∉ key)
    (hval : noEdgeWS val = true)
    (hpv : parse_header_value val = .ok hv) :
    parse_header_entry (mkCard key val) = .ok (key, hv) := by
  unfold parse_header_entry
  rw [mkCard_eq_split]
  have hmem : '=' ∉ key ++ List.replicate (8 - key.length) ' ' := by
    intro hm
    rcases List.mem_append.mp hm with h1 | h1
    · exact hkeyEq h1
    · have := List.eq_of_mem_replicate h1
      simp at this
  rw [splitFirstEq_append _ _ hmem]
  simp only
  rw [pyStrip_space_pad _ _ hval, pyStrip_pad_right _ _ hkey, hpv]

/-! ### Handler-state algebra -/

theorem curFile_advance (s : GuppiHandler) (n : Nat) : (advance s n).curFile = s.curFile := rfl

theorem pos_advance (s : GuppiHandler) (n : Nat) : (advance s n).pos = s.pos + n := rfl

theorem advance_advance (s : GuppiHandler) (m n : Nat) :
    advance (advance s m) n = advance s (m + n) := by
  unfold advance
  simp [GuppiHandler.pos, Nat.add_assoc]

theorem dropCur_advance {s : GuppiHandler} {X rest : List Nat} {n : Nat}
    (hdrop : dropCur s = X ++ rest) (hn : X.length = n) :
    dropCur (advance s n) = rest := by
  unfold dropCur at *
  rw [curFile_advance, pos_advance, ← List.drop_drop, hdrop, List.drop_left' hn]

theorem read_header_entry_eof {s : GuppiHandler} (hdrop : dropCur s = []) :
    s.read_header_entry = .eof := by
  unfold GuppiHandler.read_header_entry GuppiHandler.read
  rw [show s.curFile.drop s.pos = dropCur s from rfl, hdrop]
  simp

theorem map_ofNat_toNat (l : List Char) : (l.map Char.toNat).map Char.ofNat = l := by
  rw [List.map_map]
  have h : Char.ofNat ∘ Char.toNat = id := funext Char.ofNat_toNat
  rw [h, List.map_id]

theorem read_header_entry_card {s : GuppiHandler} {card : List Char} {rest : List Nat}
    (hdrop : dropCur s = card.map Char.toNat ++ rest)
    (hlen : card.length = 80)
    (hascii : asciiChars card = true) :
    s.read_header_entry = .entry card (advance s 80) := by
  unfold GuppiHandler.read_header_entry GuppiHandler.read
  have hmlen : (card.map Char.toNat).length = 80 := by simpa using hlen
  have htake : (s.curFile.drop s.pos).take 80 = card.map Char.toNat := by
    rw [show s.curFile.drop s.pos = dropCur s from rfl, hdrop]
    exact List.take_left' hmlen
  have hall : (card.map Char.toNat).all (fun b => decide (b < 128)) = true := by
    rw [all_map_list]
    exact hascii
  have hcomp : card.map (Char.ofNat ∘ Char.toNat) = card := by
    have h : Char.ofNat ∘ Char.toNat = id := funext Char.ofNat_toNat
    rw [h, List.map_id]
  simp only [htake, hall, hmlen]
  unfold advance
  simp [List.map_map, hcomp, map_ofNat_toNat]

/-! ### Card facts -/

theorem all_replicate_true {n : Nat} {c : Char} {p : Char → Bool} (h : p c = true) :
    (List.replicate n c).all p = true := by
  rw [List.all_eq_true]
  intro x hx
  rw [List.eq_of_mem_replicate hx]
  exact h

theorem asciiChars_of_digits {l : List Char} (h : l.all isDigitC = true) :
    asciiChars l = true := by
  unfold asciiChars
  rw [List.all_eq_true] at *
  intro x hx
  have := isDigitC_toNat (h x hx)
  simp
  omega

theorem mkCard_length {key val : List Char} (hkey : key.length ≤ 8) (hval : val.length ≤ 70) :
    (mkCard key val).length = 80 := by
  unfold mkCard
  apply padTo_length
  have h8 : (padTo 8 ' ' key).length = 8 := padTo_length ' ' hkey
  simp [h8]
  omega

theorem mkCard_ascii {key val : List Char} (hkey : asciiChars key = true)
    (hval : asciiChars val = true) : asciiChars (mkCard key val) = true := by
  unfold asciiChars at *
  unfold mkCard padTo
  rw [List.all_append, List.all_append, List.all_cons, List.all_cons, List.all_append]
  rw [hkey, hval, all_replicate_true (by decide), all_replicate_true (by decide)]
  decide

theorem eq_mem_mkCard (key val : List Char) : '=' ∈ mkCard key val := by
  rw [mkCard_eq_split]
  exact List.mem_append.mpr (Or.inr (by simp))

theorem mkCard_ne_endCard (key val : List Char) : mkCard key val ≠ endCard := by
  intro e
  have h1 := eq_mem_mkCard key val
  rw [e] at h1
  have h2 : '=' ∉ endCard := by decide
  exact h2 h1

/-! ### The header-entries loop on well-formed cards -/

theorem header_entries_step {s : GuppiHandler} {key val : List Char} {rest : List Nat}
    {fuel : Nat} {acc : List (List Char × HVal)} {hv : HVal}
    (hdrop : dropCur s = (mkCard key val).map Char.toNat ++ rest)
    (hlen : (mkCard key val).length = 80)
    (hascii : asciiChars (mkCard key val) = true)
    (hparse : parse_header_entry (mkCard key val) = .ok (key, hv)) :
    GuppiHandler.header_entries (fuel + 1) s acc
      = GuppiHandler.header_entries fuel (advance s 80) ((key, hv) :: acc) := by
  conv_lhs => rw [GuppiHandler.header_entries]
  rw [read_header_entry_card hdrop hlen hascii]
  simp only [hparse, if_neg (mkCard_ne_endCard key val)]

theorem header_entries_end {s : GuppiHandler} {rest : List Nat} {fuel : Nat}
    {acc : List (List Char × HVal)}
    (hdrop : dropCur s = endCard.map Char.toNat ++ rest) :
    GuppiHandler.header_entries (fuel + 1) s acc = .ok (acc, advance s 80) := by
  conv_lhs => rw [GuppiHandler.header_entries]
  rw [read_header_entry_card hdrop (by decide) (by decide)]
  simp

theorem header_entries_cards (cs : List CardD) :
    ∀ (s : GuppiHandler) (rest : List Nat) (fuel : Nat) (acc : List (List Char × HVal)),
    (∀ c ∈ cs, cardOK c) →
    cs.length < fuel →
    dropCur s = ((cs.map fun c => mkCard c.key c.val).flatten ++ endCard).map Char.toNat ++ rest →
    GuppiHandler.header_entries fuel s acc
      = .ok ((cs.map fun c => (c.key, c.hv)).reverse ++ acc, advance s (80 * (cs.length + 1))) := by
  induction cs with
  | nil =>
    intro s rest fuel acc _ hfuel hdrop
    obtain ⟨f, rfl⟩ : ∃ f, fuel = f + 1 := ⟨fuel - 1, by omega⟩
    simp only [List.map_nil, List.flatten_nil, List.nil_append] at hdrop
    rw [header_entries_end hdrop]
    simp
  | cons c cs ih =>
    intro s rest fuel acc hOK hfuel hdrop
    obtain ⟨f, rfl⟩ : ∃ f, fuel = f + 1 := ⟨fuel - 1, by omega⟩
    have hcOK := hOK c (List.mem_cons_self c cs)
    obtain ⟨hk1, hk2, hk3, hk4, hv1, hv2, hv3, hv4⟩ := hcOK
    have hlen80 : (mkCard c.key c.val).length = 80 := mkCard_length hk3 hv2
    have hasc : asciiChars (mkCard c.key c.val) = true := mkCard_ascii hk4 hv3
    have hdrop2 : dropCur s = (mkCard c.key c.val).map Char.toNat ++
        (((cs.map fun d => mkCard d.key d.val).flatten ++ endCard).map Char.toNat ++ rest) := by
      rw [hdrop]
      simp [List.map_append, List.append_assoc]
    have hstep := @header_entries_step s c.key c.val _ f acc c.hv hdrop2 hlen80 hasc
      (parse_mkCard c.key c.val c.hv hk1 hk2 hv1 hv4)
    rw [hstep]
    have hmlen : ((mkCard c.key c.val).map Char.toNat).length = 80 := by
      simpa using hlen80
    have hdrop3 : dropCur (advance s 80)
        = ((cs.map fun d => mkCard d.key d.val).flatten ++ endCard).map Char.toNat ++ rest :=
      dropCur_advance hdrop2 hmlen
    rw [ih (advance s 80) rest f ((c.key, c.hv) :: acc)
      (fun d hd => hOK d (List.mem_cons_of_mem _ hd)) (by simpa using hfuel) hdrop3]
    rw [advance_advance]
    have harith : 80 + 80 * (cs.length + 1) = 80 * (cs.length + 1 + 1) := by ring
    rw [harith]
    simp [List.reverse_cons, List.append_assoc]

/-! ### The cards of `to_fits` -/

theorem noEdgeWS_quoted (tel : List Char) :
    noEdgeWS (quoteChar :: (tel ++ [quoteChar])) = true := by
  unfold noEdgeWS
  have h2 : (quoteChar :: (tel ++ [quoteChar])).getLast? = some quoteChar := by
    rw [← List.cons_append, List.getLast?_concat]
  rw [h2, List.head?_cons]
  decide

theorem asciiChars_quoted {tel : List Char} (h : asciiChars tel = true) :
    asciiChars (quoteChar :: (tel ++ [quoteChar])) = true := by
  unfold asciiChars at *
  rw [List.all_cons, List.all_append, h]
  decide

theorem renderNat_OK (n : Nat) (hn : n < 10 ^ 20) :
    noEdgeWS (renderNat n) = true ∧ (renderNat n).length ≤ 70 ∧
    asciiChars (renderNat n) = true ∧
    parse_header_value (renderNat n) = .ok (.i (n : Int)) :=
  ⟨noEdgeWS_of_all_digit (renderNat_all n),
    le_trans (renderNat_length_le (by norm_num) hn) (by norm_num),
    asciiChars_of_digits (renderNat_all n), parse_header_value_renderNat n⟩

theorem cardOK_int_card (key : List Char) (n : Nat)
    (hk1 : noEdgeWS key = true) (hk2 : '=' ∉ key) (hk3 : key.length ≤ 8)
    (hk4 : asciiChars key = true) (hn : n < 10 ^ 20) :
    cardOK ⟨key, renderNat n, .i (n : Int)⟩ := by
  have hr := renderNat_OK n hn
  exact ⟨hk1, hk2, hk3, hk4, hr.1, hr.2.1, hr.2.2.1, hr.2.2.2⟩

theorem cardsOf_OK {h : GuppiRawHeader} (hwf : HWf h) : ∀ c ∈ cardsOf h, cardOK c := by
  obtain ⟨w1, w2, w3, w4, w5, w6, w7, w8⟩ := hwf
  intro c hc
  simp only [cardsOf, List.mem_cons, List.not_mem_nil, or_false] at hc
  rcases hc with rfl | rfl | rfl | rfl | rfl | rfl | rfl
  · exact ⟨(by decide : noEdgeWS kTELESCOP = true), (by decide : '=' ∉ kTELESCOP),
      (by decide : kTELESCOP.length ≤ 8), (by decide : asciiChars kTELESCOP = true),
      noEdgeWS_quoted _,
      (show (quoteChar :: (h.telescope ++ [quoteChar])).length ≤ 70 by simp; omega),
      asciiChars_quoted w2, parse_header_value_quoted _ w1⟩
  · exact cardOK_int_card kDIRECTIO _ (by decide) (by decide) (by decide) (by decide)
      (by split <;> norm_num)
  · exact cardOK_int_card kNBITS _ (by decide) (by decide) (by decide) (by decide) w4
  · exact cardOK_int_card kNPOL _ (by decide) (by decide) (by decide) (by decide) w5
  · exact cardOK_int_card kNANTS _ (by decide) (by decide) (by decide) (by decide) w6
  · exact cardOK_int_card kOBSNCHAN _ (by decide) (by decide) (by decide) (by decide) w7
  · exact cardOK_int_card kBLOCSIZE _ (by decide) (by decide) (by decide) (by decide) w8

theorem to_fits_cards (h : GuppiRawHeader) :
    h.to_fits = ((cardsOf h).map fun c => mkCard c.key c.val).flatten ++ endCard := by
  simp [GuppiRawHeader.to_fits, cardsOf, List.flatten_cons, List.append_assoc]

theorem cardsOf_entries_full (h : GuppiRawHeader) :
    ((cardsOf h).map fun c => (c.key, c.hv)).reverse = headerEntriesOf h := rfl

theorem cardsOf_entries_tail (h : GuppiRawHeader) :
    (((cardsOf h).tail.map fun c => (c.key, c.hv)).reverse
      ++ [(kTELESCOP, HVal.s h.telescope)]) = headerEntriesOf h := rfl

theorem auto_init_entries (h : GuppiRawHeader) :
    auto_init_GuppiRawHeader (headerEntriesOf h) = h := by
  obtain ⟨tel, dio, bits, npol, nants, obsn, bsz⟩ := h
  cases dio <;> rfl

theorem dropCur_length_le (s : GuppiHandler) : (dropCur s).length ≤ s.curFile.length := by
  unfold dropCur
  simp

/-! ### `read_next_header` on a written header -/

theorem to_fits_length_ge (h : GuppiRawHeader) : 80 ≤ h.to_fits.length := by
  rw [to_fits_cards]
  have : endCard.length = 80 := by decide
  simp [this]

theorem read_next_header_at_header {s : GuppiHandler} {h : GuppiRawHeader} {rest : List Nat}
    (hwf : HWf h)
    (hdrop : dropCur s = (h.to_fits.map Char.toNat) ++ rest) :
    s.read_next_header
      = .ok (h, if h.directio then (advance s 640).seek_align_directio
          else advance s 640) := by
  have hOKtel := cardsOf_OK hwf ⟨kTELESCOP, quoteChar :: (h.telescope ++ [quoteChar]),
    .s h.telescope⟩ (by simp [cardsOf])
  obtain ⟨hk1, hk2, hk3, hk4, hv1, hv2, hv3, hv4⟩ := hOKtel
  have hlen80 : (mkCard kTELESCOP (quoteChar :: (h.telescope ++ [quoteChar]))).length = 80 :=
    mkCard_length hk3 hv2
  have hasc : asciiChars (mkCard kTELESCOP (quoteChar :: (h.telescope ++ [quoteChar]))) = true :=
    mkCard_ascii hk4 hv3
  have hsplit : h.to_fits = mkCard kTELESCOP (quoteChar :: (h.telescope ++ [quoteChar]))
      ++ (((cardsOf h).tail.map fun c => mkCard c.key c.val).flatten ++ endCard) := by
    rw [to_fits_cards]
    simp [cardsOf, List.flatten_cons, List.append_assoc]
  have hdrop1 : dropCur s = (mkCard kTELESCOP (quoteChar :: (h.telescope ++ [quoteChar]))).map
      Char.toNat ++ ((((cardsOf h).tail.map fun c => mkCard c.key c.val).flatten
        ++ endCard).map Char.toNat ++ rest) := by
    rw [hdrop, hsplit]
    simp [List.map_append, List.append_assoc]
  have hentry := read_header_entry_card hdrop1 hlen80 hasc
  have hmlen : ((mkCard kTELESCOP (quoteChar :: (h.telescope ++ [quoteChar]))).map
      Char.toNat).length = 80 := by simpa using hlen80
  have hdrop2 : dropCur (advance s 80)
      = (((cardsOf h).tail.map fun c => mkCard c.key c.val).flatten
        ++ endCard).map Char.toNat ++ rest := dropCur_advance hdrop1 hmlen
  have hfuel : (cardsOf h).tail.length < (advance s 80).curFile.length + 1 := by
    have h80 : 80 ≤ (dropCur (advance s 80)).length := by
      rw [hdrop2]
      simp only [List.length_append, List.length_map]
      have hend : endCard.length = 80 := by decide
      omega
    have hle := dropCur_length_le (advance s 80)
    simp only [cardsOf, List.tail_cons, List.length_cons, List.length_nil]
    omega
  have hentries := header_entries_cards (cardsOf h).tail (advance s 80) rest
    ((advance s 80).curFile.length + 1) [(kTELESCOP, .s h.telescope)]
    (fun c hc => cardsOf_OK hwf c (List.mem_of_mem_tail hc)) hfuel hdrop2
  unfold GuppiHandler.read_next_header
  rw [hentry]
  simp only [if_neg (mkCard_ne_endCard kTELESCOP (quoteChar :: (h.telescope ++ [quoteChar]))),
    parse_mkCard kTELESCOP (quoteChar :: (h.telescope ++ [quoteChar])) (.s h.telescope)
      hk1 hk2 hv1 hv4]
  rw [hentries]
  simp only [cardsOf_entries_tail, auto_init_entries]
  have hlen7 : (cardsOf h).tail.length = 6 := by simp [cardsOf]
  rw [hlen7, advance_advance]

theorem read_next_header_roll {s : GuppiHandler} {h : GuppiRawHeader} {rest : List Nat}
    (hwf : HWf h)
    (hdrop : dropCur s = [])
    (hhandle : s.guppi_file_handle.isSome = true)
    (hlt : s.guppi_file_index + 1 < s.guppi_filepaths.length)
    (hf2 : s.guppi_filepaths.getD (s.guppi_file_index + 1) []
      = (h.to_fits.map Char.toNat) ++ rest) :
    s.read_next_header = .ok (h,
      if h.directio then (advance (rollState s) 640).seek_align_directio
      else advance (rollState s) 640) := by
  have heof := read_header_entry_eof hdrop
  have hopen : s.open_next_file = some (rollState s) := by
    unfold GuppiHandler.open_next_file rollState
    rw [hhandle]
    simp [hlt]
  have hcur2 : (rollState s).curFile = (h.to_fits.map Char.toNat) ++ rest := by
    rw [show (rollState s).curFile = s.guppi_filepaths.getD (s.guppi_file_index + 1) []
      from rfl]
    exact hf2
  have hdrop2 : dropCur (rollState s) = (h.to_fits.map Char.toNat) ++ rest := by
    rw [show dropCur (rollState s) = (rollState s).curFile from rfl]
    exact hcur2
  have hdrop3 : dropCur (rollState s)
      = (((cardsOf h).map fun c => mkCard c.key c.val).flatten ++ endCard).map Char.toNat
        ++ rest := by
    rw [hdrop2, ← to_fits_cards]
  have hfuel : (cardsOf h).length < (rollState s).curFile.length + 1 := by
    rw [hcur2]
    have := to_fits_length_ge h
    simp only [cardsOf, List.length_cons, List.length_nil, List.length_append,
      List.length_map]
    omega
  have hentries := header_entries_cards (cardsOf h) (rollState s) rest
    ((rollState s).curFile.length + 1) [] (cardsOf_OK hwf) hfuel hdrop3
  unfold GuppiHandler.read_next_header
  rw [heof, hopen]
  simp only
  rw [hentries]
  simp only [List.append_nil, cardsOf_entries_full, auto_init_entries]
  have hlen7 : (cardsOf h).length = 7 := by simp [cardsOf]
  rw [hlen7]

theorem read_next_header_exhausted {s : GuppiHandler}
    (hdrop : dropCur s = [])
    (hhandle : s.guppi_file_handle.isSome = true)
    (hge : s.guppi_filepaths.length ≤ s.guppi_file_index + 1) :
    s.read_next_header = .error .indexOut := by
  have heof := read_header_entry_eof hdrop
  have hopen : s.open_next_file = none := by
    unfold GuppiHandler.open_next_file
    rw [hhandle]
    simp only [if_true]
    rw [if_neg (by omega)]
  unfold GuppiHandler.read_next_header
  rw [heof, hopen]

/-! ### Data bytes -/

theorem encComp_length (w : Nat) (x : Int) : (encComp w x).length = w := by
  unfold encComp
  simp

theorem encComp_one (x : Int) : encComp 1 x = [(x % 256).toNat] := by
  unfold encComp
  have hr : List.range 1 = [0] := rfl
  rw [hr]
  simp only [List.map_cons, List.map_nil]
  norm_num
  have h1 : 0 ≤ x % 256 := Int.emod_nonneg x (by norm_num)
  have h2 : x % 256 < 256 := Int.emod_lt_of_pos x (by norm_num)
  omega

theorem flatMap_length_const {α β : Type} (f : α → List β) (w : Nat)
    (hf : ∀ x, (f x).length = w) (l : List α) : (l.flatMap f).length = l.length * w := by
  induction l with
  | nil => simp
  | cons a t ih =>
    rw [List.flatMap_cons, List.length_append, hf, ih, List.length_cons]
    ring

theorem dataBytes_length (db : DataBlock) :
    (dataBytes db).length = db.comps.length * db.itemBytes := by
  unfold dataBytes
  exact flatMap_length_const _ _ (encComp_length db.itemBytes) db.comps

theorem dataBytes_one {db : DataBlock} (h1 : db.itemBytes = 1) :
    dataBytes db = db.comps.map (fun x => (x % 256).toNat) := by
  unfold dataBytes
  rw [h1]
  induction db.comps with
  | nil => rfl
  | cons a t ih => rw [List.flatMap_cons, encComp_one, List.map_cons, ih]; rfl

theorem byteToInt8_enc {x : Int} (h1 : -128 ≤ x) (h2 : x < 128) :
    byteToInt8 (x % 256).toNat = x := by
  unfold byteToInt8
  split <;> omega

theorem map_byteToInt8_enc {l : List Int} (h : ∀ x ∈ l, -128 ≤ x ∧ x < 128) :
    (l.map (fun x => (x % 256).toNat)).map byteToInt8 = l := by
  induction l with
  | nil => rfl
  | cons a t ih =>
    simp only [List.map_cons]
    rw [byteToInt8_enc (h a (by simp)).1 (h a (by simp)).2,
      ih (fun x hx => h x (List.mem_cons_of_mem _ hx))]

theorem pairUp_flatMap (ps : List (Int × Int)) :
    pairUp (ps.flatMap fun p => [p.1, p.2]) = some ps := by
  induction ps with
  | nil => rfl
  | cons p t ih =>
    rw [List.flatMap_cons]
    show pairUp (p.1 :: p.2 :: t.flatMap fun q => [q.1, q.2]) = some (p :: t)
    unfold pairUp
    rw [ih]
    rfl

/-! ### Geometry of the derived header -/

theorem whf_fields (base : GuppiRawHeader) (db : DataBlock) :
    (GuppiHandler.write_header_fields base db).telescope = base.telescope ∧
    (GuppiHandler.write_header_fields base db).directio = base.directio ∧
    (GuppiHandler.write_header_fields base db).nof_antennas = db.A ∧
    (GuppiHandler.write_header_fields base db).nof_polarizations = db.P ∧
    (GuppiHandler.write_header_fields base db).observed_nof_channels = db.A * db.F ∧
    (GuppiHandler.write_header_fields base db).blocksize = (dataBytes db).length ∧
    (GuppiHandler.write_header_fields base db).nof_bits
      = (dataBytes db).length * 8 / (db.A * db.F * db.T * db.P * 2) :=
  ⟨rfl, rfl, rfl, rfl, rfl, rfl, rfl⟩

theorem whf_bits {base : GuppiRawHeader} {db : DataBlock} {m : Nat}
    (hpos : 0 < db.A * db.F * db.T * db.P)
    (hlen : (dataBytes db).length = db.A * db.F * db.T * db.P * m) :
    (GuppiHandler.write_header_fields base db).nof_bits = 4 * m := by
  rw [(whf_fields base db).2.2.2.2.2.2, hlen]
  have he : db.A * db.F * db.T * db.P * m * 8
      = (db.A * db.F * db.T * db.P * 2) * (4 * m) := by ring
  rw [he, Nat.mul_div_cancel_left _ (Nat.mul_pos hpos (by omega))]

theorem whf_blockshape {base : GuppiRawHeader} {db : DataBlock} {m : Nat}
    (hA : 0 < db.A) (hF : 0 < db.F) (hT : 0 < db.T) (hP : 0 < db.P) (hm : 0 < m)
    (hlen : (dataBytes db).length = db.A * db.F * db.T * db.P * m) :
    (GuppiHandler.write_header_fields base db).blockshape = (db.A, db.F, db.T, db.P) := by
  have hpos : 0 < db.A * db.F * db.T * db.P := by positivity
  unfold GuppiRawHeader.blockshape
  rw [(whf_fields base db).2.2.1, (whf_fields base db).2.2.2.1,
    (whf_fields base db).2.2.2.2.1, (whf_fields base db).2.2.2.2.2.1,
    whf_bits hpos hlen, hlen]
  have hF2 : db.A * db.F / db.A = db.F := Nat.mul_div_cancel_left _ hA
  have htot : db.A * db.F * db.T * db.P * m * 8 / (4 * m * 2)
      = db.A * db.F * db.T * db.P := by
    have he : db.A * db.F * db.T * db.P * m * 8
        = (4 * m * 2) * (db.A * db.F * db.T * db.P) := by ring
    rw [he, Nat.mul_div_cancel_left _ (by positivity)]
  have hT2 : db.A * db.F * db.T * db.P / (db.A * db.F * db.P) = db.T := by
    have he : db.A * db.F * db.T * db.P = (db.A * db.F * db.P) * db.T := by ring
    rw [he, Nat.mul_div_cancel_left _ (by positivity)]
  simp only [hF2, htot, hT2]

theorem whf_shapeProd {base : GuppiRawHeader} {db : DataBlock} {m : Nat}
    (hA : 0 < db.A) (hF : 0 < db.F) (hT : 0 < db.T) (hP : 0 < db.P) (hm : 0 < m)
    (hlen : (dataBytes db).length = db.A * db.F * db.T * db.P * m) :
    shapeProd (GuppiHandler.write_header_fields base db).blockshape
      = db.A * db.F * db.T * db.P := by
  rw [whf_blockshape hA hF hT hP hm hlen]
  rfl

/-! ### `read_block` on written data -/

theorem read_block_run {s : GuppiHandler} {h : GuppiRawHeader} {B : List Nat}
    {V : List Int} {ps : List (Int × Int)} {rest : List Nat}
    (hbits : h.nof_bits = 4 ∨ h.nof_bits = 8) (hdio : h.directio = false)
    (hsize : h.blocksize = B.length)
    (hdrop : dropCur s = B ++ rest)
    (hV : (if h.nof_bits = 4 then decode4 (B.map byteToInt8) else B.map byteToInt8) = V)
    (hpair : pairUp V = some ps)
    (hshape : ps.length = shapeProd h.blockshape) :
    s.read_block h = .ok (ps, advance s B.length) := by
  unfold GuppiHandler.read_block GuppiHandler.read
  rw [if_neg (by simp [hbits])]
  have htake : (s.curFile.drop s.pos).take h.blocksize = B := by
    rw [show s.curFile.drop s.pos = dropCur s from rfl, hdrop, hsize]
    exact List.take_left' rfl
  simp only [htake, hdio, Bool.false_eq_true, if_false, hV, hpair, hshape, if_pos rfl]
  rfl

/-! ### Steps of the blocks loop -/

theorem blocksLoop_done {fuel : Nat} {s : GuppiHandler}
    {ref : Option (Nat × Nat × Nat × Nat)} {acc : List (GuppiRawHeader × List (Int × Int))}
    (hread : s.read_next_header = .error .indexOut) :
    GuppiHandler.blocksLoop (fuel + 1) s ref acc = (acc.reverse, none) := by
  conv_lhs => rw [GuppiHandler.blocksLoop]
  rw [hread]

theorem blocksLoop_step_first {fuel : Nat} {s s2 s3 : GuppiHandler} {h : GuppiRawHeader}
    {ps : List (Int × Int)} {acc : List (GuppiRawHeader × List (Int × Int))}
    (hread : s.read_next_header = .ok (h, s2))
    (hvalid : GuppiHandler.validate_header h = none)
    (hblock : s2.read_block h = .ok (ps, s3)) :
    GuppiHandler.blocksLoop (fuel + 1) s none acc
      = GuppiHandler.blocksLoop fuel s3 (some h.blockshape) ((h, ps) :: acc) := by
  conv_lhs => rw [GuppiHandler.blocksLoop]
  rw [hread]
  simp only [hvalid, hblock, Option.getD_none]

theorem blocksLoop_step_next {fuel : Nat} {s s2 s3 : GuppiHandler} {h : GuppiRawHeader}
    {r : Nat × Nat × Nat × Nat} {ps : List (Int × Int)}
    {acc : List (GuppiRawHeader × List (Int × Int))}
    (hread : s.read_next_header = .ok (h, s2))
    (hshape : h.blockshape = r)
    (hblock : s2.read_block h = .ok (ps, s3)) :
    GuppiHandler.blocksLoop (fuel + 1) s (some r) acc
      = GuppiHandler.blocksLoop fuel s3 (some r) ((h, ps) :: acc) := by
  conv_lhs => rw [GuppiHandler.blocksLoop]
  rw [hread]
  have hnot : ¬(h.blockshape ≠ r) := fun hn => hn hshape
  simp only [if_neg hnot, hblock, Option.getD_some]

theorem advance_isSome (s : GuppiHandler) (n : Nat) :
    (advance s n).guppi_file_handle.isSome = true := rfl

theorem write_chunk_false {base : GuppiRawHeader} (db : DataBlock)
    (hdio : base.directio = false) :
    GuppiHandler.write_chunk base db
      = ((GuppiHandler.write_header_fields base db).to_fits.map Char.toNat)
        ++ dataBytes db := by
  unfold GuppiHandler.write_chunk
  have hd : (GuppiHandler.write_header_fields base db).directio = false := by
    rw [(whf_fields base db).2.1]
    exact hdio
  simp [hd]

theorem to_fits_length {h : GuppiRawHeader} (hwf : HWf h) : h.to_fits.length = 640 := by
  obtain ⟨w1, w2, w3, w4, w5, w6, w7, w8⟩ := hwf
  rw [to_fits_cards, List.length_append]
  have hend : endCard.length = 80 := by decide
  have l1 : (mkCard kTELESCOP (quoteChar :: (h.telescope ++ [quoteChar]))).length = 80 :=
    mkCard_length (by decide) (by simp; omega)
  have l2 : (mkCard kDIRECTIO (renderNat (if h.directio then 1 else 0))).length = 80 :=
    mkCard_length (by decide) (renderNat_OK _ (by split <;> norm_num)).2.1
  have l3 : (mkCard kNBITS (renderNat h.nof_bits)).length = 80 :=
    mkCard_length (by decide) (renderNat_OK _ w4).2.1
  have l4 : (mkCard kNPOL (renderNat h.nof_polarizations)).length = 80 :=
    mkCard_length (by decide) (renderNat_OK _ w5).2.1
  have l5 : (mkCard kNANTS (renderNat h.nof_antennas)).length = 80 :=
    mkCard_length (by decide) (renderNat_OK _ w6).2.1
  have l6 : (mkCard kOBSNCHAN (renderNat h.observed_nof_channels)).length = 80 :=
    mkCard_length (by decide) (renderNat_OK _ w7).2.1
  have l7 : (mkCard kBLOCSIZE (renderNat h.blocksize)).length = 80 :=
    mkCard_length (by decide) (renderNat_OK _ w8).2.1
  simp only [cardsOf, List.map_cons, List.map_nil, List.flatten_cons, List.flatten_nil,
    List.length_append, List.length_nil, hend, l1, l2, l3, l4, l5, l6, l7]

/-! ### The loop over a written multi-file stream -/

theorem blocksLoop_run
    (base : GuppiRawHeader) (shape : Nat × Nat × Nat × Nat)
    (expected : DataBlock → List (Int × Int)) (good : DataBlock → Prop)
    (hdio : base.directio = false)
    (hgood_wf : ∀ db, good db → HWf (GuppiHandler.write_header_fields base db))
    (hgood_shape : ∀ db, good db →
      (GuppiHandler.write_header_fields base db).blockshape = shape)
    (hgood_block : ∀ db, good db → ∀ s2 : GuppiHandler, ∀ rest2 : List Nat,
      dropCur s2 = dataBytes db ++ rest2 →
      s2.read_block (GuppiHandler.write_header_fields base db)
        = .ok (expected db, advance s2 (dataBytes db).length)) :
    ∀ (fuel : Nat) (dbs : List DataBlock) (groups : List (List DataBlock))
      (s : GuppiHandler) (acc : List (GuppiRawHeader × List (Int × Int))),
    (∀ db ∈ dbs, good db) →
    (∀ g ∈ groups, g ≠ [] ∧ ∀ db ∈ g, good db) →
    s.guppi_file_handle.isSome = true →
    dropCur s = (dbs.map (GuppiHandler.write_chunk base)).flatten →
    s.guppi_filepaths.drop (s.guppi_file_index + 1) = groups.map (writeFileContents base) →
    dbs.length + groups.flatten.length < fuel →
    GuppiHandler.blocksLoop fuel s (some shape) acc
      = (acc.reverse ++ (dbs ++ groups.flatten).map
          (fun db => (GuppiHandler.write_header_fields base db, expected db)), none) := by
  intro fuel
  induction fuel with
  | zero =>
    intro dbs groups s acc _ _ _ _ _ hfuel
    omega
  | succ f ih =>
    intro dbs groups s acc hdbs hgroups hhandle hdrop hfiles hfuel
    cases dbs with
    | nil =>
      cases groups with
      | nil =>
        have hempty : dropCur s = [] := by simpa using hdrop
        have hlen : s.guppi_filepaths.length ≤ s.guppi_file_index + 1 :=
          List.drop_eq_nil_iff.mp (by simpa using hfiles)
        rw [blocksLoop_done (read_next_header_exhausted hempty hhandle hlen)]
        simp
      | cons g gs =>
        obtain ⟨hgne, hgood_g⟩ := hgroups g (List.mem_cons_self g gs)
        obtain ⟨d, ds, rfl⟩ := List.exists_cons_of_ne_nil hgne
        have hgood_d : good d := hgood_g d (by simp)
        have hempty : dropCur s = [] := by simpa using hdrop
        have hfiles2 : s.guppi_filepaths.drop (s.guppi_file_index + 1)
            = writeFileContents base (d :: ds) :: gs.map (writeFileContents base) := by
          simpa using hfiles
        have hlt : s.guppi_file_index + 1 < s.guppi_filepaths.length := by
          by_contra hcon
          rw [not_lt] at hcon
          have hnil : s.guppi_filepaths.drop (s.guppi_file_index + 1) = [] :=
            List.drop_eq_nil_iff.mpr hcon
          rw [hnil] at hfiles2
          exact absurd hfiles2 (by simp)
        have hget : s.guppi_filepaths.getD (s.guppi_file_index + 1) []
            = writeFileContents base (d :: ds) := by
          have hh := congrArg List.head? hfiles2
          rw [List.head?_drop] at hh
          simp only [List.head?_cons] at hh
          rw [List.getD_eq_getElem?_getD, hh]
          rfl
        have hfile_decomp : writeFileContents base (d :: ds)
            = ((GuppiHandler.write_header_fields base d).to_fits.map Char.toNat)
              ++ (dataBytes d ++ (ds.map (GuppiHandler.write_chunk base)).flatten) := by
          unfold writeFileContents
          rw [List.map_cons, List.flatten_cons, write_chunk_false d hdio, List.append_assoc]
        have hroll := read_next_header_roll (hgood_wf d hgood_d) hempty hhandle hlt
          (by rw [hget, hfile_decomp])
        have hdfalse : (GuppiHandler.write_header_fields base d).directio = false := by
          rw [(whf_fields base d).2.1]
          exact hdio
        rw [hdfalse] at hroll
        simp only [Bool.false_eq_true, if_false] at hroll
        have hdroproll : dropCur (rollState s)
            = ((GuppiHandler.write_header_fields base d).to_fits.map Char.toNat)
              ++ (dataBytes d ++ (ds.map (GuppiHandler.write_chunk base)).flatten) := by
          rw [show dropCur (rollState s) = (rollState s).curFile from rfl,
            show (rollState s).curFile
              = s.guppi_filepaths.getD (s.guppi_file_index + 1) [] from rfl,
            hget, hfile_decomp]
        have hmhlen : (((GuppiHandler.write_header_fields base d).to_fits.map
            Char.toNat)).length = 640 := by
          rw [List.length_map]
          exact to_fits_length (hgood_wf d hgood_d)
        have hdropData : dropCur (advance (rollState s) 640)
            = dataBytes d ++ (ds.map (GuppiHandler.write_chunk base)).flatten :=
          dropCur_advance hdroproll hmhlen
        have hblock := hgood_block d hgood_d (advance (rollState s) 640) _ hdropData
        rw [blocksLoop_step_next hroll (hgood_shape d hgood_d) hblock]
        rw [ih ds gs _ _ (fun db hdb => hgood_g db (List.mem_cons_of_mem _ hdb))
          (fun g2 hg2 => hgroups g2 (List.mem_cons_of_mem _ hg2))
          (advance_isSome _ _)
          (dropCur_advance hdropData rfl)
          (by
            rw [show (advance (advance (rollState s) 640)
                (dataBytes d).length).guppi_filepaths = s.guppi_filepaths from rfl,
              show (advance (advance (rollState s) 640)
                (dataBytes d).length).guppi_file_index = s.guppi_file_index + 1 from rfl,
              ← List.tail_drop, hfiles2]
            simp)
          (by
            have := hfuel
            simp only [List.length_nil, List.flatten_cons, List.length_append,
              List.length_cons] at this ⊢
            omega)]
        simp [List.reverse_cons, List.append_assoc]
    | cons d ds =>
      have hgood_d : good d := hdbs d (by simp)
      have hdrop1 : dropCur s
          = ((GuppiHandler.write_header_fields base d).to_fits.map Char.toNat)
            ++ (dataBytes d ++ (ds.map (GuppiHandler.write_chunk base)).flatten) := by
        rw [hdrop, List.map_cons, List.flatten_cons, write_chunk_false d hdio,
          List.append_assoc]
      have hread := read_next_header_at_header (hgood_wf d hgood_d) hdrop1
      have hdfalse : (GuppiHandler.write_header_fields base d).directio = false := by
        rw [(whf_fields base d).2.1]
        exact hdio
      rw [hdfalse] at hread
      simp only [Bool.false_eq_true, if_false] at hread
      have hmhlen : (((GuppiHandler.write_header_fields base d).to_fits.map
          Char.toNat)).length = 640 := by
        rw [List.length_map]
        exact to_fits_length (hgood_wf d hgood_d)
      have hdropData : dropCur (advance s 640)
          = dataBytes d ++ (ds.map (GuppiHandler.write_chunk base)).flatten :=
        dropCur_advance hdrop1 hmhlen
      have hblock := hgood_block d hgood_d (advance s 640) _ hdropData
      rw [blocksLoop_step_next hread (hgood_shape d hgood_d) hblock]
      rw [ih ds groups _ _ (fun db hdb => hdbs db (List.mem_cons_of_mem _ hdb))
        hgroups
        (advance_isSome _ _)
        (dropCur_advance hdropData rfl)
        (by
          rw [show (advance (advance s 640)
              (dataBytes d).length).guppi_filepaths = s.guppi_filepaths from rfl,
            show (advance (advance s 640)
              (dataBytes d).length).guppi_file_index = s.guppi_file_index from rfl]
          exact hfiles)
        (by
          simp only [List.length_cons] at hfuel ⊢
          omega)]
      simp [List.reverse_cons, List.append_assoc]

/-! ### The 8-bit sample blocks -/

theorem mkDb8_comps_length {A F T P : Nat} {ps : List (Int × Int)} :
    (mkDb8 A F T P ps).comps.length = ps.length * 2 := by
  show (ps.flatMap fun p => [p.1, p.2]).length = ps.length * 2
  exact flatMap_length_const (fun p : Int × Int => [p.1, p.2]) 2 (fun x => rfl) ps

theorem mkDb8_dataBytes_length {A F T P : Nat} {ps : List (Int × Int)}
    (hlen : ps.length = A * F * T * P) :
    (dataBytes (mkDb8 A F T P ps)).length = A * F * T * P * 2 := by
  rw [dataBytes_length, mkDb8_comps_length]
  show ps.length * 2 * 1 = A * F * T * P * 2
  rw [hlen]
  ring

theorem le_prod4_1 {A F T P : Nat} (hF : 0 < F) (hT : 0 < T) (hP : 0 < P) :
    A ≤ A * F * T * P := by
  calc A ≤ A * (F * T * P) := Nat.le_mul_of_pos_right A (by positivity)
  _ = A * F * T * P := by ring

theorem le_prod4_2 {A F T P : Nat} (hT : 0 < T) (hP : 0 < P) :
    A * F ≤ A * F * T * P := by
  calc A * F ≤ A * F * (T * P) := Nat.le_mul_of_pos_right _ (by positivity)
  _ = A * F * T * P := by ring

theorem le_prod4_4 {A F T P : Nat} (hA : 0 < A) (hF : 0 < F) (hT : 0 < T) :
    P ≤ A * F * T * P := Nat.le_mul_of_pos_left P (by positivity)

theorem good8_wf {base : GuppiRawHeader} {A F T P : Nat} {ps : List (Int × Int)}
    (hA : 0 < A) (hF : 0 < F) (hT : 0 < T) (hP : 0 < P)
    (hbound : A * F * T * P < 10 ^ 17)
    (htel1 : noEdgeWS base.telescope = true) (htel2 : asciiChars base.telescope = true)
    (htel3 : base.telescope.length ≤ 68)
    (hlen : ps.length = A * F * T * P) :
    HWf (GuppiHandler.write_header_fields base (mkDb8 A F T P ps)) := by
  have hdlen := mkDb8_dataBytes_length (A := A) (F := F) (T := T) (P := P) hlen
  have hpos : 0 < A * F * T * P := by positivity
  have hbits := @whf_bits base (mkDb8 A F T P ps) 2 hpos hdlen
  have hfields := whf_fields base (mkDb8 A F T P ps)
  refine ⟨?_, ?_, ?_, ?_, ?_, ?_, ?_, ?_⟩
  · rw [hfields.1]; exact htel1
  · rw [hfields.1]; exact htel2
  · rw [hfields.1]; exact htel3
  · rw [hbits]; norm_num
  · rw [hfields.2.2.2.1]
    have := le_prod4_4 (A := A) (F := F) (T := T) (P := P) hA hF hT
    calc P ≤ A * F * T * P := this
    _ < 10 ^ 17 := hbound
    _ < 10 ^ 20 := by norm_num
  · rw [hfields.2.2.1]
    have := le_prod4_1 (A := A) (F := F) (T := T) (P := P) hF hT hP
    calc A ≤ A * F * T * P := this
    _ < 10 ^ 17 := hbound
    _ < 10 ^ 20 := by norm_num
  · rw [hfields.2.2.2.2.1]
    have := le_prod4_2 (A := A) (F := F) (T := T) (P := P) hT hP
    calc A * F ≤ A * F * T * P := this
    _ < 10 ^ 17 := hbound
    _ < 10 ^ 20 := by norm_num
  · rw [hfields.2.2.2.2.2.1, hdlen]
    calc A * F * T * P * 2 < 10 ^ 17 * 2 := by omega
    _ < 10 ^ 20 := by norm_num

theorem good8_shape {base : GuppiRawHeader} {A F T P : Nat} {ps : List (Int × Int)}
    (hA : 0 < A) (hF : 0 < F) (hT : 0 < T) (hP : 0 < P)
    (hlen : ps.length = A * F * T * P) :
    (GuppiHandler.write_header_fields base (mkDb8 A F T P ps)).blockshape
      = (A, F, T, P) :=
  whf_blockshape hA hF hT hP (by omega) (mkDb8_dataBytes_length hlen)

theorem good8_bits {base : GuppiRawHeader} {A F T P : Nat} {ps : List (Int × Int)}
    (hA : 0 < A) (hF : 0 < F) (hT : 0 < T) (hP : 0 < P)
    (hlen : ps.length = A * F * T * P) :
    (GuppiHandler.write_header_fields base (mkDb8 A F T P ps)).nof_bits = 8 := by
  have := @whf_bits base (mkDb8 A F T P ps) 2 (by positivity)
    (mkDb8_dataBytes_length hlen)
  rw [this]

theorem good8_validate {base : GuppiRawHeader} {A F T P : Nat} {ps : List (Int × Int)}
    (hA : 0 < A) (hF : 0 < F) (hT : 0 < T) (hP : 0 < P) (hPol : P = 1 ∨ P = 2)
    (hlen : ps.length = A * F * T * P) :
    GuppiHandler.validate_header
      (GuppiHandler.write_header_fields base (mkDb8 A F T P ps)) = none := by
  unfold GuppiHandler.validate_header
  rw [good8_bits hA hF hT hP hlen, (whf_fields base (mkDb8 A F T P ps)).2.2.2.1]
  rw [if_neg (show ¬¬(8 = 4 ∨ 8 = 8) by norm_num)]
  rw [if_neg (show ¬¬((mkDb8 A F T P ps).P = 1 ∨ (mkDb8 A F T P ps).P = 2)
    from fun hcon => hcon hPol)]

theorem range_comps {ps : List (Int × Int)} (h : pairsRange8 ps) :
    ∀ x ∈ (ps.flatMap fun p => [p.1, p.2]), -128 ≤ x ∧ x < 128 := by
  intro x hx
  rw [List.mem_flatMap] at hx
  obtain ⟨p, hp, hxp⟩ := hx
  obtain ⟨b1, b2, b3, b4⟩ := h p hp
  simp only [List.mem_cons, List.not_mem_nil, or_false] at hxp
  rcases hxp with rfl | rfl
  exacts [⟨b1, b2⟩, ⟨b3, b4⟩]

theorem expected8_mkDb8 (A F T P : Nat) (ps : List (Int × Int)) :
    expected8 (mkDb8 A F T P ps) = ps := by
  unfold expected8
  show (pairUp (ps.flatMap fun p => [p.1, p.2])).getD [] = ps
  rw [pairUp_flatMap]
  rfl

theorem good8_read_block {base : GuppiRawHeader} {A F T P : Nat} {ps : List (Int × Int)}
    (hA : 0 < A) (hF : 0 < F) (hT : 0 < T) (hP : 0 < P)
    (hdio : base.directio = false)
    (hlen : ps.length = A * F * T * P) (hrange : pairsRange8 ps) :
    ∀ s2 : GuppiHandler, ∀ rest2 : List Nat,
    dropCur s2 = dataBytes (mkDb8 A F T P ps) ++ rest2 →
    s2.read_block (GuppiHandler.write_header_fields base (mkDb8 A F T P ps))
      = .ok (expected8 (mkDb8 A F T P ps),
          advance s2 (dataBytes (mkDb8 A F T P ps)).length) := by
  intro s2 rest2 hdrop
  rw [expected8_mkDb8]
  have hb8 := @good8_bits base A F T P ps hA hF hT hP hlen
  apply read_block_run (V := (mkDb8 A F T P ps).comps)
  · exact Or.inr hb8
  · rw [(whf_fields base (mkDb8 A F T P ps)).2.1]
    exact hdio
  · exact (whf_fields base (mkDb8 A F T P ps)).2.2.2.2.2.1
  · exact hdrop
  · rw [hb8, if_neg (by norm_num : ¬(8 = 4))]
    rw [dataBytes_one rfl]
    exact map_byteToInt8_enc (range_comps hrange)
  · exact pairUp_flatMap ps
  · rw [whf_shapeProd hA hF hT hP (by omega) (mkDb8_dataBytes_length hlen), hlen]
    rfl

theorem blocks_open (files : List (List Nat)) (hne : files ≠ []) (i0 : Nat)
    (h0 : Option Nat) (fuel : Nat) :
    GuppiHandler.blocks ⟨files, i0, h0⟩ fuel
      = GuppiHandler.blocksLoop fuel ⟨files, 0, some 0⟩ none [] := by
  unfold GuppiHandler.blocks GuppiHandler.open_next_file
  have hl : 0 < files.length := List.length_pos.mpr hne
  simp [hl]

theorem guppi_blocks_written_8bit
    (base : GuppiRawHeader) (A F T P : Nat)
    (groups : List (List (List (Int × Int))))
    (hA : 0 < A) (hF : 0 < F) (hT : 0 < T) (hP : 0 < P) (hPol : P = 1 ∨ P = 2)
    (hbound : A * F * T * P < 10 ^ 17)
    (hdio : base.directio = false)
    (htel1 : noEdgeWS base.telescope = true) (htel2 : asciiChars base.telescope = true)
    (htel3 : base.telescope.length ≤ 68)
    (hgne : groups ≠ []) (hgroups_ne : ∀ g ∈ groups, g ≠ [])
    (hps : ∀ g ∈ groups, ∀ ps ∈ g, ps.length = A * F * T * P ∧ pairsRange8 ps)
    (i0 : Nat) (h0 : Option Nat) :
    GuppiHandler.blocks
      ⟨groups.map (fun g => writeFileContents base (g.map (mkDb8 A F T P))), i0, h0⟩
      (groups.flatten.length + 1)
      = (groups.flatten.map (fun ps =>
          (GuppiHandler.write_header_fields base (mkDb8 A F T P ps), ps)), none) := by
  obtain ⟨g0, gs, rfl⟩ := List.exists_cons_of_ne_nil hgne
  obtain ⟨p0, prest, rfl⟩ := List.exists_cons_of_ne_nil (hgroups_ne g0 (by simp))
  have hp0 := hps (p0 :: prest) (by simp) p0 (by simp)
  set fls : List (List Nat) := ((p0 :: prest) :: gs).map
    (fun g => writeFileContents base (g.map (mkDb8 A F T P))) with hfls
  have hflsne : fls ≠ [] := by rw [hfls]; simp
  rw [blocks_open fls hflsne]
  have hwf0 := good8_wf hA hF hT hP hbound htel1 htel2 htel3 hp0.1
  have hfile0 : dropCur ⟨fls, 0, some 0⟩
      = ((GuppiHandler.write_header_fields base (mkDb8 A F T P p0)).to_fits.map Char.toNat)
        ++ (dataBytes (mkDb8 A F T P p0)
          ++ ((prest.map (mkDb8 A F T P)).map (GuppiHandler.write_chunk base)).flatten) := by
    have hcf : dropCur (⟨fls, 0, some 0⟩ : GuppiHandler)
        = writeFileContents base ((p0 :: prest).map (mkDb8 A F T P)) := by
      rw [show dropCur (⟨fls, 0, some 0⟩ : GuppiHandler) = fls.getD 0 [] from rfl, hfls]
      rfl
    rw [hcf]
    unfold writeFileContents
    rw [List.map_cons, List.map_cons, List.flatten_cons, write_chunk_false _ hdio,
      List.append_assoc]
  have hread := read_next_header_at_header hwf0 hfile0
  have hdfalse : (GuppiHandler.write_header_fields base (mkDb8 A F T P p0)).directio
      = false := by
    rw [(whf_fields base (mkDb8 A F T P p0)).2.1]
    exact hdio
  rw [hdfalse] at hread
  simp only [Bool.false_eq_true, if_false] at hread
  have hvalid := @good8_validate base A F T P p0 hA hF hT hP hPol hp0.1
  have hmhlen : (((GuppiHandler.write_header_fields base
      (mkDb8 A F T P p0)).to_fits.map Char.toNat)).length = 640 := by
    rw [List.length_map]
    exact to_fits_length hwf0
  have hdropData : dropCur (advance (⟨fls, 0, some 0⟩ : GuppiHandler) 640)
      = dataBytes (mkDb8 A F T P p0)
        ++ ((prest.map (mkDb8 A F T P)).map (GuppiHandler.write_chunk base)).flatten :=
    dropCur_advance hfile0 hmhlen
  have hblock := @good8_read_block base A F T P p0 hA hF hT hP hdio hp0.1 hp0.2
    (advance (⟨fls, 0, some 0⟩ : GuppiHandler) 640) _ hdropData
  have hflat_len : ((p0 :: prest) :: gs).flatten.length
      = prest.length + 1 + gs.flatten.length := by
    simp
    omega
  rw [blocksLoop_step_first hread hvalid hblock]
  rw [@good8_shape base A F T P p0 hA hF hT hP hp0.1, expected8_mkDb8]
  have hrun := blocksLoop_run base (A, F, T, P) expected8
    (fun db => ∃ qs : List (Int × Int), db = mkDb8 A F T P qs
      ∧ qs.length = A * F * T * P ∧ pairsRange8 qs)
    hdio
    (by
      rintro db ⟨qs, rfl, hl, hr⟩
      exact good8_wf hA hF hT hP hbound htel1 htel2 htel3 hl)
    (by
      rintro db ⟨qs, rfl, hl, hr⟩
      exact good8_shape hA hF hT hP hl)
    (by
      rintro db ⟨qs, rfl, hl, hr⟩
      exact good8_read_block hA hF hT hP hdio hl hr)
    (((p0 :: prest) :: gs).flatten.length)
    (prest.map (mkDb8 A F T P)) (gs.map (List.map (mkDb8 A F T P)))
    (advance (advance (⟨fls, 0, some 0⟩ : GuppiHandler) 640)
      (dataBytes (mkDb8 A F T P p0)).length)
    [(GuppiHandler.write_header_fields base (mkDb8 A F T P p0), p0)]
    (by
      intro db hdb
      rw [List.mem_map] at hdb
      obtain ⟨qs, hqs, rfl⟩ := hdb
      exact ⟨qs, rfl, (hps (p0 :: prest) (by simp) qs (List.mem_cons_of_mem _ hqs)).1,
        (hps (p0 :: prest) (by simp) qs (List.mem_cons_of_mem _ hqs)).2⟩)
    (by
      intro g2 hg2
      rw [List.mem_map] at hg2
      obtain ⟨g, hg, rfl⟩ := hg2
      constructor
      · simp only [ne_eq, List.map_eq_nil_iff]
        exact hgroups_ne g (List.mem_cons_of_mem _ hg)
      · intro db hdb
        rw [List.mem_map] at hdb
        obtain ⟨qs, hqs, rfl⟩ := hdb
        exact ⟨qs, rfl, (hps g (List.mem_cons_of_mem _ hg) qs hqs).1,
          (hps g (List.mem_cons_of_mem _ hg) qs hqs).2⟩)
    (advance_isSome _ _)
    (dropCur_advance hdropData rfl)
    (by
      rw [show (advance (advance (⟨fls, 0, some 0⟩ : GuppiHandler) 640)
          (dataBytes (mkDb8 A F T P p0)).length).guppi_filepaths = fls from rfl,
        show (advance (advance (⟨fls, 0, some 0⟩ : GuppiHandler) 640)
          (dataBytes (mkDb8 A F T P p0)).length).guppi_file_index = 0 from rfl,
        hfls]
      simp [List.map_map, Function.comp])
    (by
      rw [hflat_len]
      have hfl : ((gs.map (List.map (mkDb8 A F T P))).flatten).length
          = gs.flatten.length := by
        rw [← List.map_flatten, List.length_map]
      rw [List.length_map, hfl]
      omega)
  rw [hrun]
  have hcomp : ((fun db => (GuppiHandler.write_header_fields base db, expected8 db))
      ∘ (mkDb8 A F T P)) = fun qs =>
        (GuppiHandler.write_header_fields base (mkDb8 A F T P qs), qs) := by
    funext qs
    simp [Function.comp, expected8_mkDb8]
  simp only [List.reverse_cons, List.reverse_nil, List.nil_append, List.map_append,
    List.map_map, hcomp, ← List.map_flatten, List.flatten_cons, List.map_cons,
    List.cons_append, List.singleton_append]

theorem guppi_blocks_written_family
    (base : GuppiRawHeader)
    (shape : Nat × Nat × Nat × Nat)
    (mk : List (Int × Int) → DataBlock)
    (cond : List (Int × Int) → Prop)
    (expected : DataBlock → List (Int × Int))
    (hmk_wf : ∀ ps, cond ps → HWf (GuppiHandler.write_header_fields base (mk ps)))
    (hmk_shape : ∀ ps, cond ps →
      (GuppiHandler.write_header_fields base (mk ps)).blockshape = shape)
    (hmk_valid : ∀ ps, cond ps →
      GuppiHandler.validate_header (GuppiHandler.write_header_fields base (mk ps)) = none)
    (hmk_block : ∀ ps, cond ps → ∀ s2 : GuppiHandler, ∀ rest2 : List Nat,
      dropCur s2 = dataBytes (mk ps) ++ rest2 →
      s2.read_block (GuppiHandler.write_header_fields base (mk ps))
        = .ok (ps, advance s2 (dataBytes (mk ps)).length))
    (hexp : ∀ ps, cond ps → expected (mk ps) = ps)
    (hdio : base.directio = false)
    (groups : List (List (List (Int × Int))))
    (hgne : groups ≠ []) (hgroups_ne : ∀ g ∈ groups, g ≠ [])
    (hps : ∀ g ∈ groups, ∀ ps ∈ g, cond ps)
    (i0 : Nat) (h0 : Option Nat) :
    GuppiHandler.blocks
      ⟨groups.map (fun g => writeFileContents base (g.map mk)), i0, h0⟩
      (groups.flatten.length + 1)
      = (groups.flatten.map (fun ps =>
          (GuppiHandler.write_header_fields base (mk ps), ps)), none) := by
  obtain ⟨g0, gs, rfl⟩ := List.exists_cons_of_ne_nil hgne
  obtain ⟨p0, prest, rfl⟩ := List.exists_cons_of_ne_nil (hgroups_ne g0 (by simp))
  have hp0 : cond p0 := hps (p0 :: prest) (by simp) p0 (by simp)
  set fls : List (List Nat) := ((p0 :: prest) :: gs).map
    (fun g => writeFileContents base (g.map mk)) with hfls
  have hflsne : fls ≠ [] := by rw [hfls]; simp
  rw [blocks_open fls hflsne]
  have hwf0 := hmk_wf p0 hp0
  have hfile0 : dropCur ⟨fls, 0, some 0⟩
      = ((GuppiHandler.write_header_fields base (mk p0)).to_fits.map Char.toNat)
        ++ (dataBytes (mk p0)
          ++ ((prest.map mk).map (GuppiHandler.write_chunk base)).flatten) := by
    have hcf : dropCur (⟨fls, 0, some 0⟩ : GuppiHandler)
        = writeFileContents base ((p0 :: prest).map mk) := by
      rw [show dropCur (⟨fls, 0, some 0⟩ : GuppiHandler) = fls.getD 0 [] from rfl, hfls]
      rfl
    rw [hcf]
    unfold writeFileContents
    rw [List.map_cons, List.map_cons, List.flatten_cons, write_chunk_false _ hdio,
      List.append_assoc]
  have hread := read_next_header_at_header hwf0 hfile0
  have hdfalse : (GuppiHandler.write_header_fields base (mk p0)).directio = false := by
    rw [(whf_fields base (mk p0)).2.1]
    exact hdio
  rw [hdfalse] at hread
  simp only [Bool.false_eq_true, if_false] at hread
  have hvalid := hmk_valid p0 hp0
  have hmhlen : (((GuppiHandler.write_header_fields base
      (mk p0)).to_fits.map Char.toNat)).length = 640 := by
    rw [List.length_map]
    exact to_fits_length hwf0
  have hdropData : dropCur (advance (⟨fls, 0, some 0⟩ : GuppiHandler) 640)
      = dataBytes (mk p0)
        ++ ((prest.map mk).map (GuppiHandler.write_chunk base)).flatten :=
    dropCur_advance hfile0 hmhlen
  have hblock := hmk_block p0 hp0
    (advance (⟨fls, 0, some 0⟩ : GuppiHandler) 640) _ hdropData
  have hflat_len : ((p0 :: prest) :: gs).flatten.length
      = prest.length + 1 + gs.flatten.length := by
    simp
    omega
  rw [blocksLoop_step_first hread hvalid hblock]
  rw [hmk_shape p0 hp0]
  have hrun := blocksLoop_run base shape expected
    (fun db => ∃ qs : List (Int × Int), db = mk qs ∧ cond qs)
    hdio
    (by
      rintro db ⟨qs, rfl, hc⟩
      exact hmk_wf qs hc)
    (by
      rintro db ⟨qs, rfl, hc⟩
      exact hmk_shape qs hc)
    (by
      rintro db ⟨qs, rfl, hc⟩
      intro s2 rest2 hdr
      rw [hexp qs hc]
      exact hmk_block qs hc s2 rest2 hdr)
    (((p0 :: prest) :: gs).flatten.length)
    (prest.map mk) (gs.map (List.map mk))
    (advance (advance (⟨fls, 0, some 0⟩ : GuppiHandler) 640)
      (dataBytes (mk p0)).length)
    [(GuppiHandler.write_header_fields base (mk p0), p0)]
    (by
      intro db hdb
      rw [List.mem_map] at hdb
      obtain ⟨qs, hqs, rfl⟩ := hdb
      exact ⟨qs, rfl, hps (p0 :: prest) (by simp) qs (List.mem_cons_of_mem _ hqs)⟩)
    (by
      intro g2 hg2
      rw [List.mem_map] at hg2
      obtain ⟨g, hg, rfl⟩ := hg2
      constructor
      · simp only [ne_eq, List.map_eq_nil_iff]
        exact hgroups_ne g (List.mem_cons_of_mem _ hg)
      · intro db hdb
        rw [List.mem_map] at hdb
        obtain ⟨qs, hqs, rfl⟩ := hdb
        exact ⟨qs, rfl, hps g (List.mem_cons_of_mem _ hg) qs hqs⟩)
    (advance_isSome _ _)
    (dropCur_advance hdropData rfl)
    (by
      rw [show (advance (advance (⟨fls, 0, some 0⟩ : GuppiHandler) 640)
          (dataBytes (mk p0)).length).guppi_filepaths = fls from rfl,
        show (advance (advance (⟨fls, 0, some 0⟩ : GuppiHandler) 640)
          (dataBytes (mk p0)).length).guppi_file_index = 0 from rfl,
        hfls]
      simp [List.map_map, Function.comp])
    (by
      rw [hflat_len]
      have hfl : ((gs.map (List.map mk)).flatten).length = gs.flatten.length := by
        rw [← List.map_flatten, List.length_map]
      rw [List.length_map, hfl]
      omega)
  rw [hrun]
  have hmap1 : (prest.map mk).map
      (fun db => (GuppiHandler.write_header_fields base db, expected db))
      = prest.map (fun qs => (GuppiHandler.write_header_fields base (mk qs), qs)) := by
    rw [List.map_map]
    apply List.map_congr_left
    intro qs hqs
    have hc := hps (p0 :: prest) (by simp) qs (List.mem_cons_of_mem _ hqs)
    simp [Function.comp, hexp qs hc]
  have hmap2 : ((gs.map (List.map mk)).flatten).map
      (fun db => (GuppiHandler.write_header_fields base db, expected db))
      = gs.flatten.map (fun qs => (GuppiHandler.write_header_fields base (mk qs), qs)) := by
    rw [← List.map_flatten, List.map_map]
    apply List.map_congr_left
    intro qs hqs
    rw [List.mem_flatten] at hqs
    obtain ⟨g, hg, hqg⟩ := hqs
    have hc := hps g (List.mem_cons_of_mem _ hg) qs hqg
    simp [Function.comp, hexp qs hc]
  simp only [List.reverse_cons, List.reverse_nil, List.nil_append, List.map_append,
    hmap1, hmap2, List.flatten_cons, List.map_cons, List.cons_append,
    List.singleton_append]

/-! ### The 4-bit nibble-packed blocks -/

theorem decode4_cons (b : Int) (t : List Int) :
    decode4 (b :: t) = shift4 b :: shift4 (wrap8 (b * 16)) :: decode4 t := rfl

theorem decode4_pack {re im : Int} (h1 : -8 ≤ re) (h2 : re ≤ 7) (h3 : -8 ≤ im)
    (h4 : im ≤ 7) :
    shift4 (pack4 (re, im)) = re ∧ shift4 (wrap8 (pack4 (re, im) * 16)) = im := by
  unfold pack4 shift4 wrap8
  refine ⟨?_, ?_⟩ <;> (interval_cases re <;> interval_cases im <;> decide)

theorem pack4_range {p : Int × Int} (h1 : -8 ≤ p.1) (h2 : p.1 ≤ 7) :
    -128 ≤ pack4 p ∧ pack4 p < 128 := by
  unfold pack4
  have hm1 : 0 ≤ p.2 % 16 := Int.emod_nonneg p.2 (by norm_num)
  have hm2 : p.2 % 16 < 16 := Int.emod_lt_of_pos p.2 (by norm_num)
  omega

theorem decode4_map_pack {ps : List (Int × Int)} (h : pairsRange4 ps) :
    decode4 (ps.map pack4) = ps.flatMap fun p => [p.1, p.2] := by
  induction ps with
  | nil => rfl
  | cons p t ih =>
    obtain ⟨b1, b2, b3, b4⟩ := h p (by simp)
    have hd := decode4_pack b1 b2 b3 b4
    rw [List.map_cons, decode4_cons, List.flatMap_cons]
    show _ :: _ :: decode4 (t.map pack4) = p.1 :: p.2 :: (t.flatMap fun q => [q.1, q.2])
    rw [ih (fun q hq => h q (List.mem_cons_of_mem _ hq))]
    have hp : pack4 p = pack4 (p.1, p.2) := rfl
    rw [hp, hd.1, hd.2]

theorem mkDb4_dataBytes_length {A F T P : Nat} {ps : List (Int × Int)}
    (hlen : ps.length = A * F * T * P) :
    (dataBytes (mkDb4 A F T P ps)).length = A * F * T * P * 1 := by
  rw [dataBytes_length]
  show (ps.map pack4).length * 1 = A * F * T * P * 1
  rw [List.length_map, hlen]

theorem expected4_mkDb4 {A F T P : Nat} {ps : List (Int × Int)}
    (h : pairsRange4 ps) : expected4 (mkDb4 A F T P ps) = ps := by
  unfold expected4
  show (pairUp (decode4 (ps.map pack4))).getD [] = ps
  rw [decode4_map_pack h, pairUp_flatMap]
  rfl

theorem good4_wf {base : GuppiRawHeader} {A F T P : Nat} {ps : List (Int × Int)}
    (hA : 0 < A) (hF : 0 < F) (hT : 0 < T) (hP : 0 < P)
    (hbound : A * F * T * P < 10 ^ 17)
    (htel1 : noEdgeWS base.telescope = true) (htel2 : asciiChars base.telescope = true)
    (htel3 : base.telescope.length ≤ 68)
    (hlen : ps.length = A * F * T * P) :
    HWf (GuppiHandler.write_header_fields base (mkDb4 A F T P ps)) := by
  have hdlen := mkDb4_dataBytes_length (A := A) (F := F) (T := T) (P := P) hlen
  have hpos : 0 < A * F * T * P := by positivity
  have hbits := @whf_bits base (mkDb4 A F T P ps) 1 hpos hdlen
  have hfields := whf_fields base (mkDb4 A F T P ps)
  refine ⟨?_, ?_, ?_, ?_, ?_, ?_, ?_, ?_⟩
  · rw [hfields.1]; exact htel1
  · rw [hfields.1]; exact htel2
  · rw [hfields.1]; exact htel3
  · rw [hbits]; norm_num
  · rw [hfields.2.2.2.1]
    have h4 := le_prod4_4 (A := A) (F := F) (T := T) (P := P) hA hF hT
    calc P ≤ A * F * T * P := h4
    _ < 10 ^ 17 := hbound
    _ < 10 ^ 20 := by norm_num
  · rw [hfields.2.2.1]
    have h4 := le_prod4_1 (A := A) (F := F) (T := T) (P := P) hF hT hP
    calc A ≤ A * F * T * P := h4
    _ < 10 ^ 17 := hbound
    _ < 10 ^ 20 := by norm_num
  · rw [hfields.2.2.2.2.1]
    have h4 := le_prod4_2 (A := A) (F := F) (T := T) (P := P) hT hP
    calc A * F ≤ A * F * T * P := h4
    _ < 10 ^ 17 := hbound
    _ < 10 ^ 20 := by norm_num
  · rw [hfields.2.2.2.2.2.1, hdlen]
    calc A * F * T * P * 1 ≤ A * F * T * P := by omega
    _ < 10 ^ 17 := hbound
    _ < 10 ^ 20 := by norm_num

theorem good4_bits {base : GuppiRawHeader} {A F T P : Nat} {ps : List (Int × Int)}
    (hA : 0 < A) (hF : 0 < F) (hT : 0 < T) (hP : 0 < P)
    (hlen : ps.length = A * F * T * P) :
    (GuppiHandler.write_header_fields base (mkDb4 A F T P ps)).nof_bits = 4 := by
  have hb := @whf_bits base (mkDb4 A F T P ps) 1 (by positivity)
    (mkDb4_dataBytes_length hlen)
  rw [hb]

theorem good4_shape {base : GuppiRawHeader} {A F T P : Nat} {ps : List (Int × Int)}
    (hA : 0 < A) (hF : 0 < F) (hT : 0 < T) (hP : 0 < P)
    (hlen : ps.length = A * F * T * P) :
    (GuppiHandler.write_header_fields base (mkDb4 A F T P ps)).blockshape
      = (A, F, T, P) :=
  whf_blockshape hA hF hT hP (by omega) (mkDb4_dataBytes_length hlen)

theorem good4_validate {base : GuppiRawHeader} {A F T P : Nat} {ps : List (Int × Int)}
    (hA : 0 < A) (hF : 0 < F) (hT : 0 < T) (hP : 0 < P) (hPol : P = 1 ∨ P = 2)
    (hlen : ps.length = A * F * T * P) :
    GuppiHandler.validate_header
      (GuppiHandler.write_header_fields base (mkDb4 A F T P ps)) = none := by
  unfold GuppiHandler.validate_header
  rw [good4_bits hA hF hT hP hlen, (whf_fields base (mkDb4 A F T P ps)).2.2.2.1]
  rw [if_neg (show ¬¬(4 = 4 ∨ 4 = 8) by norm_num)]
  rw [if_neg (show ¬¬((mkDb4 A F T P ps).P = 1 ∨ (mkDb4 A F T P ps).P = 2)
    from fun hcon => hcon hPol)]

theorem range_comps4 {ps : List (Int × Int)} (h : pairsRange4 ps) :
    ∀ x ∈ ps.map pack4, -128 ≤ x ∧ x < 128 := by
  intro x hx
  rw [List.mem_map] at hx
  obtain ⟨p, hp, rfl⟩ := hx
  obtain ⟨b1, b2, b3, b4⟩ := h p hp
  exact pack4_range b1 b2

theorem good4_read_block {base : GuppiRawHeader} {A F T P : Nat} {ps : List (Int × Int)}
    (hA : 0 < A) (hF : 0 < F) (hT : 0 < T) (hP : 0 < P)
    (hdio : base.directio = false)
    (hlen : ps.length = A * F * T * P) (hrange : pairsRange4 ps) :
    ∀ s2 : GuppiHandler, ∀ rest2 : List Nat,
    dropCur s2 = dataBytes (mkDb4 A F T P ps) ++ rest2 →
    s2.read_block (GuppiHandler.write_header_fields base (mkDb4 A F T P ps))
      = .ok (ps, advance s2 (dataBytes (mkDb4 A F T P ps)).length) := by
  intro s2 rest2 hdrop
  have hb4 := @good4_bits base A F T P ps hA hF hT hP hlen
  apply read_block_run (V := ps.flatMap fun p => [p.1, p.2])
  · exact Or.inl hb4
  · rw [(whf_fields base (mkDb4 A F T P ps)).2.1]
    exact hdio
  · exact (whf_fields base (mkDb4 A F T P ps)).2.2.2.2.2.1
  · exact hdrop
  · rw [hb4, if_pos rfl, dataBytes_one rfl]
    rw [show (mkDb4 A F T P ps).comps = ps.map pack4 from rfl]
    rw [map_byteToInt8_enc (range_comps4 hrange)]
    exact decode4_map_pack hrange
  · exact pairUp_flatMap ps
  · rw [whf_shapeProd hA hF hT hP (by omega) (mkDb4_dataBytes_length hlen), hlen]
    rfl

/-! ### Fault paths of the blocks loop -/

theorem blocksLoop_validate_fault {fuel : Nat} {s s2 : GuppiHandler} {h : GuppiRawHeader}
    {acc : List (GuppiRawHeader × List (Int × Int))} {e : GuppiError}
    (hread : s.read_next_header = .ok (h, s2))
    (hvalid : GuppiHandler.validate_header h = some e) :
    GuppiHandler.blocksLoop (fuel + 1) s none acc = (acc.reverse, some e) := by
  conv_lhs => rw [GuppiHandler.blocksLoop]
  rw [hread]
  simp only [hvalid]

theorem blocksLoop_shape_fault {fuel : Nat} {s s2 : GuppiHandler} {h : GuppiRawHeader}
    {r : Nat × Nat × Nat × Nat} {acc : List (GuppiRawHeader × List (Int × Int))}
    (hread : s.read_next_header = .ok (h, s2))
    (hne : h.blockshape ≠ r) :
    GuppiHandler.blocksLoop (fuel + 1) s (some r) acc
      = (acc.reverse, some .inconsistentBlockShape) := by
  conv_lhs => rw [GuppiHandler.blocksLoop]
  rw [hread]
  simp only [if_pos hne]

theorem blocksLoop_block_fault {fuel : Nat} {s s2 : GuppiHandler} {h : GuppiRawHeader}
    {r : Nat × Nat × Nat × Nat} {acc : List (GuppiRawHeader × List (Int × Int))}
    {e : GuppiError}
    (hread : s.read_next_header = .ok (h, s2))
    (hshape : h.blockshape = r)
    (hblock : s2.read_block h = .error e) :
    GuppiHandler.blocksLoop (fuel + 1) s (some r) acc = (acc.reverse, some e) := by
  conv_lhs => rw [GuppiHandler.blocksLoop]
  rw [hread]
  have hnot : ¬(h.blockshape ≠ r) := fun hn => hn hshape
  simp only [if_neg hnot, hblock]

theorem read_block_keyError {s : GuppiHandler} {h : GuppiRawHeader}
    (hbits : ¬(h.nof_bits = 4 ∨ h.nof_bits = 8)) :
    s.read_block h = .error .keyError := by
  unfold GuppiHandler.read_block
  rw [if_pos hbits]

/-! ### 16-bit blocks (written but not readable) -/

theorem mkDb16_dataBytes_length {A F T P : Nat} {ps : List (Int × Int)}
    (hlen : ps.length = A * F * T * P) :
    (dataBytes (mkDb16 A F T P ps)).length = A * F * T * P * 4 := by
  rw [dataBytes_length]
  show (ps.flatMap fun p => [p.1, p.2]).length * 2 = A * F * T * P * 4
  rw [flatMap_length_const (fun p : Int × Int => [p.1, p.2]) 2 (fun x => rfl) ps, hlen]
  ring

theorem good16_bits {base : GuppiRawHeader} {A F T P : Nat} {ps : List (Int × Int)}
    (hA : 0 < A) (hF : 0 < F) (hT : 0 < T) (hP : 0 < P)
    (hlen : ps.length = A * F * T * P) :
    (GuppiHandler.write_header_fields base (mkDb16 A F T P ps)).nof_bits = 16 := by
  have hb := @whf_bits base (mkDb16 A F T P ps) 4 (by positivity)
    (mkDb16_dataBytes_length hlen)
  rw [hb]

theorem good16_shape {base : GuppiRawHeader} {A F T P : Nat} {ps : List (Int × Int)}
    (hA : 0 < A) (hF : 0 < F) (hT : 0 < T) (hP : 0 < P)
    (hlen : ps.length = A * F * T * P) :
    (GuppiHandler.write_header_fields base (mkDb16 A F T P ps)).blockshape
      = (A, F, T, P) :=
  whf_blockshape hA hF hT hP (by omega) (mkDb16_dataBytes_length hlen)

theorem good16_wf {base : GuppiRawHeader} {A F T P : Nat} {ps : List (Int × Int)}
    (hA : 0 < A) (hF : 0 < F) (hT : 0 < T) (hP : 0 < P)
    (hbound : A * F * T * P < 10 ^ 17)
    (htel1 : noEdgeWS base.telescope = true) (htel2 : asciiChars base.telescope = true)
    (htel3 : base.telescope.length ≤ 68)
    (hlen : ps.length = A * F * T * P) :
    HWf (GuppiHandler.write_header_fields base (mkDb16 A F T P ps)) := by
  have hdlen := mkDb16_dataBytes_length (A := A) (F := F) (T := T) (P := P) hlen
  have hfields := whf_fields base (mkDb16 A F T P ps)
  refine ⟨?_, ?_, ?_, ?_, ?_, ?_, ?_, ?_⟩
  · rw [hfields.1]; exact htel1
  · rw [hfields.1]; exact htel2
  · rw [hfields.1]; exact htel3
  · rw [good16_bits hA hF hT hP hlen]; norm_num
  · rw [hfields.2.2.2.1]
    have h4 := le_prod4_4 (A := A) (F := F) (T := T) (P := P) hA hF hT
    calc P ≤ A * F * T * P := h4
    _ < 10 ^ 17 := hbound
    _ < 10 ^ 20 := by norm_num
  · rw [hfields.2.2.1]
    have h4 := le_prod4_1 (A := A) (F := F) (T := T) (P := P) hF hT hP
    calc A ≤ A * F * T * P := h4
    _ < 10 ^ 17 := hbound
    _ < 10 ^ 20 := by norm_num
  · rw [hfields.2.2.2.2.1]
    have h4 := le_prod4_2 (A := A) (F := F) (T := T) (P := P) hT hP
    calc A * F ≤ A * F * T * P := h4
    _ < 10 ^ 17 := hbound
    _ < 10 ^ 20 := by norm_num
  · rw [hfields.2.2.2.2.2.1, hdlen]
    calc A * F * T * P * 4 < 10 ^ 17 * 4 := by omega
    _ < 10 ^ 20 := by norm_num

theorem good16_validate {base : GuppiRawHeader} {A F T P : Nat} {ps : List (Int × Int)}
    (hA : 0 < A) (hF : 0 < F) (hT : 0 < T) (hP : 0 < P)
    (hlen : ps.length = A * F * T * P) :
    GuppiHandler.validate_header
      (GuppiHandler.write_header_fields base (mkDb16 A F T P ps))
      = some .unsupportedBitDepth := by
  unfold GuppiHandler.validate_header
  rw [good16_bits hA hF hT hP hlen]
  rw [if_pos (by norm_num)]

/-! ### Written fault scenarios -/

theorem written16_first_fault (base : GuppiRawHeader) (A F T P : Nat)
    (ps : List (Int × Int))
    (hA : 0 < A) (hF : 0 < F) (hT : 0 < T) (hP : 0 < P)
    (hbound : A * F * T * P < 10 ^ 17)
    (hdio : base.directio = false)
    (htel1 : noEdgeWS base.telescope = true) (htel2 : asciiChars base.telescope = true)
    (htel3 : base.telescope.length ≤ 68)
    (hlen : ps.length = A * F * T * P)
    (i0 fuel : Nat) (h0 : Option Nat) :
    GuppiHandler.blocks
      ⟨[writeFileContents base [mkDb16 A F T P ps]], i0, h0⟩ (fuel + 1)
      = ([], some .unsupportedBitDepth) := by
  rw [blocks_open _ (by simp)]
  have hwf := good16_wf hA hF hT hP hbound htel1 htel2 htel3 hlen
  have hfile : dropCur ⟨[writeFileContents base [mkDb16 A F T P ps]], 0, some 0⟩
      = ((GuppiHandler.write_header_fields base (mkDb16 A F T P ps)).to_fits.map
          Char.toNat) ++ (dataBytes (mkDb16 A F T P ps) ++ []) := by
    rw [show dropCur ⟨[writeFileContents base [mkDb16 A F T P ps]], 0, some 0⟩
      = writeFileContents base [mkDb16 A F T P ps] from rfl]
    unfold writeFileContents
    rw [List.map_cons, List.map_nil, List.flatten_cons, List.flatten_nil,
      write_chunk_false _ hdio, List.append_assoc]
  have hread := read_next_header_at_header hwf hfile
  rw [blocksLoop_validate_fault hread (good16_validate hA hF hT hP hlen)]
  rfl

theorem written8_then_shape_fault (base : GuppiRawHeader)
    (A F T P A2 F2 T2 P2 : Nat) (ps1 ps2 : List (Int × Int))
    (hA : 0 < A) (hF : 0 < F) (hT : 0 < T) (hP : 0 < P) (hPol : P = 1 ∨ P = 2)
    (hA2 : 0 < A2) (hF2 : 0 < F2) (hT2 : 0 < T2) (hP2 : 0 < P2)
    (hbound : A * F * T * P < 10 ^ 17) (hbound2 : A2 * F2 * T2 * P2 < 10 ^ 17)
    (hdio : base.directio = false)
    (htel1 : noEdgeWS base.telescope = true) (htel2 : asciiChars base.telescope = true)
    (htel3 : base.telescope.length ≤ 68)
    (hlen1 : ps1.length = A * F * T * P) (hrange1 : pairsRange8 ps1)
    (hlen2 : ps2.length = A2 * F2 * T2 * P2)
    (hne : (A2, F2, T2, P2) ≠ (A, F, T, P))
    (i0 fuel : Nat) (h0 : Option Nat) :
    GuppiHandler.blocks
      ⟨[writeFileContents base [mkDb8 A F T P ps1, mkDb8 A2 F2 T2 P2 ps2]], i0, h0⟩
      (fuel + 2)
      = ([(GuppiHandler.write_header_fields base (mkDb8 A F T P ps1), ps1)],
          some .inconsistentBlockShape) := by
  rw [blocks_open _ (by simp)]
  have hwf1 := good8_wf hA hF hT hP hbound htel1 htel2 htel3 hlen1
  have hwf2 := good8_wf hA2 hF2 hT2 hP2 hbound2 htel1 htel2 htel3 hlen2
  set f0 : List Nat :=
    writeFileContents base [mkDb8 A F T P ps1, mkDb8 A2 F2 T2 P2 ps2] with hf0
  have hfile : dropCur ⟨[f0], 0, some 0⟩
      = ((GuppiHandler.write_header_fields base (mkDb8 A F T P ps1)).to_fits.map
          Char.toNat) ++ (dataBytes (mkDb8 A F T P ps1)
            ++ (GuppiHandler.write_chunk base (mkDb8 A2 F2 T2 P2 ps2) ++ [])) := by
    rw [show dropCur ⟨[f0], 0, some 0⟩ = f0 from rfl, hf0]
    unfold writeFileContents
    rw [List.map_cons, List.map_cons, List.map_nil, List.flatten_cons, List.flatten_cons,
      List.flatten_nil, write_chunk_false _ hdio, List.append_assoc]
  have hread1 := read_next_header_at_header hwf1 hfile
  have hdfalse1 : (GuppiHandler.write_header_fields base
      (mkDb8 A F T P ps1)).directio = false := by
    rw [(whf_fields base (mkDb8 A F T P ps1)).2.1]
    exact hdio
  rw [hdfalse1] at hread1
  simp only [Bool.false_eq_true, if_false] at hread1
  have hmhlen1 : (((GuppiHandler.write_header_fields base
      (mkDb8 A F T P ps1)).to_fits.map Char.toNat)).length = 640 := by
    rw [List.length_map]
    exact to_fits_length hwf1
  have hdropData : dropCur (advance (⟨[f0], 0, some 0⟩ : GuppiHandler) 640)
      = dataBytes (mkDb8 A F T P ps1)
        ++ (GuppiHandler.write_chunk base (mkDb8 A2 F2 T2 P2 ps2) ++ []) :=
    dropCur_advance hfile hmhlen1
  have hblock1 := @good8_read_block base A F T P ps1 hA hF hT hP hdio hlen1 hrange1
    (advance (⟨[f0], 0, some 0⟩ : GuppiHandler) 640) _ hdropData
  rw [expected8_mkDb8] at hblock1
  rw [blocksLoop_step_first hread1 (good8_validate hA hF hT hP hPol hlen1) hblock1]
  rw [@good8_shape base A F T P ps1 hA hF hT hP hlen1]
  have hdrop2 : dropCur (advance (advance (⟨[f0], 0, some 0⟩ : GuppiHandler) 640)
        (dataBytes (mkDb8 A F T P ps1)).length)
      = ((GuppiHandler.write_header_fields base (mkDb8 A2 F2 T2 P2 ps2)).to_fits.map
          Char.toNat) ++ (dataBytes (mkDb8 A2 F2 T2 P2 ps2) ++ []) := by
    rw [dropCur_advance hdropData rfl, write_chunk_false _ hdio, List.append_assoc,
      List.append_nil]
  have hread2 := read_next_header_at_header hwf2 hdrop2
  have hdfalse2 : (GuppiHandler.write_header_fields base
      (mkDb8 A2 F2 T2 P2 ps2)).directio = false := by
    rw [(whf_fields base (mkDb8 A2 F2 T2 P2 ps2)).2.1]
    exact hdio
  rw [hdfalse2] at hread2
  simp only [Bool.false_eq_true, if_false] at hread2
  rw [blocksLoop_shape_fault hread2 (by
    rw [@good8_shape base A2 F2 T2 P2 ps2 hA2 hF2 hT2 hP2 hlen2]
    exact hne)]
  rfl

theorem written8_then_16_keyError (base : GuppiRawHeader)
    (A F T P : Nat) (ps1 ps2 : List (Int × Int))
    (hA : 0 < A) (hF : 0 < F) (hT : 0 < T) (hP : 0 < P) (hPol : P = 1 ∨ P = 2)
    (hbound : A * F * T * P < 10 ^ 17)
    (hdio : base.directio = false)
    (htel1 : noEdgeWS base.telescope = true) (htel2 : asciiChars base.telescope = true)
    (htel3 : base.telescope.length ≤ 68)
    (hlen1 : ps1.length = A * F * T * P) (hrange1 : pairsRange8 ps1)
    (hlen2 : ps2.length = A * F * T * P)
    (i0 fuel : Nat) (h0 : Option Nat) :
    GuppiHandler.blocks
      ⟨[writeFileContents base [mkDb8 A F T P ps1, mkDb16 A F T P ps2]], i0, h0⟩
      (fuel + 2)
      = ([(GuppiHandler.write_header_fields base (mkDb8 A F T P ps1), ps1)],
          some .keyError) := by
  rw [blocks_open _ (by simp)]
  have hwf1 := good8_wf hA hF hT hP hbound htel1 htel2 htel3 hlen1
  have hwf2 := good16_wf hA hF hT hP hbound htel1 htel2 htel3 hlen2
  set f0 : List Nat :=
    writeFileContents base [mkDb8 A F T P ps1, mkDb16 A F T P ps2] with hf0
  have hfile : dropCur ⟨[f0], 0, some 0⟩
      = ((GuppiHandler.write_header_fields base (mkDb8 A F T P ps1)).to_fits.map
          Char.toNat) ++ (dataBytes (mkDb8 A F T P ps1)
            ++ (GuppiHandler.write_chunk base (mkDb16 A F T P ps2) ++ [])) := by
    rw [show dropCur ⟨[f0], 0, some 0⟩ = f0 from rfl, hf0]
    unfold writeFileContents
    rw [List.map_cons, List.map_cons, List.map_nil, List.flatten_cons, List.flatten_cons,
      List.flatten_nil, write_chunk_false _ hdio, List.append_assoc]
  have hread1 := read_next_header_at_header hwf1 hfile
  have hdfalse1 : (GuppiHandler.write_header_fields base
      (mkDb8 A F T P ps1)).directio = false := by
    rw [(whf_fields base (mkDb8 A F T P ps1)).2.1]
    exact hdio
  rw [hdfalse1] at hread1
  simp only [Bool.false_eq_true, if_false] at hread1
  have hmhlen1 : (((GuppiHandler.write_header_fields base
      (mkDb8 A F T P ps1)).to_fits.map Char.toNat)).length = 640 := by
    rw [List.length_map]
    exact to_fits_length hwf1
  have hdropData : dropCur (advance (⟨[f0], 0, some 0⟩ : GuppiHandler) 640)
      = dataBytes (mkDb8 A F T P ps1)
        ++ (GuppiHandler.write_chunk base (mkDb16 A F T P ps2) ++ []) :=
    dropCur_advance hfile hmhlen1
  have hblock1 := @good8_read_block base A F T P ps1 hA hF hT hP hdio hlen1 hrange1
    (advance (⟨[f0], 0, some 0⟩ : GuppiHandler) 640) _ hdropData
  rw [expected8_mkDb8] at hblock1
  rw [blocksLoop_step_first hread1 (good8_validate hA hF hT hP hPol hlen1) hblock1]
  rw [@good8_shape base A F T P ps1 hA hF hT hP hlen1]
  have hdrop2 : dropCur (advance (advance (⟨[f0], 0, some 0⟩ : GuppiHandler) 640)
        (dataBytes (mkDb8 A F T P ps1)).length)
      = ((GuppiHandler.write_header_fields base (mkDb16 A F T P ps2)).to_fits.map
          Char.toNat) ++ (dataBytes (mkDb16 A F T P ps2) ++ []) := by
    rw [dropCur_advance hdropData rfl, write_chunk_false _ hdio, List.append_assoc,
      List.append_nil]
  have hread2 := read_next_header_at_header hwf2 hdrop2
  have hdfalse2 : (GuppiHandler.write_header_fields base
      (mkDb16 A F T P ps2)).directio = false := by
    rw [(whf_fields base (mkDb16 A F T P ps2)).2.1]
    exact hdio
  rw [hdfalse2] at hread2
  simp only [Bool.false_eq_true, if_false] at hread2
  rw [blocksLoop_block_fault hread2 (good16_shape hA hF hT hP hlen2)
    (read_block_keyError (by rw [good16_bits hA hF hT hP hlen2]; norm_num))]
  rfl

/-! ## Claim theorems -/

/-- C2: for every header produced on the write path, with the fields
derived from the supplied array's shape `(A, F, T, P)` and byte length,
`product(blockshape) * nof_bits * 2 = blocksize * 8` holds, for every
bit depth (`m` bytes per array element, covering the exercised 8/16/32-bit
complex dtypes and the 4-bit packed layout). -/
theorem C2_geometry_invariant (base : GuppiRawHeader) (db : DataBlock) (m : Nat)
    (hA : 0 < db.A) (hF : 0 < db.F) (hT : 0 < db.T) (hP : 0 < db.P) (hm : 0 < m)
    (hlen : (dataBytes db).length = db.A * db.F * db.T * db.P * m) :
    shapeProd (GuppiHandler.write_header_fields base db).blockshape
        * (GuppiHandler.write_header_fields base db).nof_bits * 2
      = (GuppiHandler.write_header_fields base db).blocksize * 8 := by
  rw [whf_shapeProd hA hF hT hP hm hlen,
    whf_bits (by positivity) hlen,
    (whf_fields base db).2.2.2.2.2.1, hlen]
  ring

/-- C2 witness at a concrete one-sample 8-bit block. -/
theorem C2_geometry_invariant_witness :
    (dataBytes ⟨1, 1, 1, 1, 1, [0, 0]⟩).length = 1 * 1 * 1 * 1 * 2 ∧
    shapeProd (GuppiHandler.write_header_fields ⟨['X'], false, 0, 0, 0, 0, 0⟩
        ⟨1, 1, 1, 1, 1, [0, 0]⟩).blockshape
        * (GuppiHandler.write_header_fields ⟨['X'], false, 0, 0, 0, 0, 0⟩
            ⟨1, 1, 1, 1, 1, [0, 0]⟩).nof_bits * 2
      = (GuppiHandler.write_header_fields ⟨['X'], false, 0, 0, 0, 0, 0⟩
          ⟨1, 1, 1, 1, 1, [0, 0]⟩).blocksize * 8 :=
  ⟨by decide, C2_geometry_invariant ⟨['X'], false, 0, 0, 0, 0, 0⟩ ⟨1, 1, 1, 1, 1, [0, 0]⟩
    2 (by decide) (by decide) (by decide) (by decide) (by decide) (by decide)⟩

/-- C3: the 4-bit decode of `read_block` doubles the element count, with
the first sample of each input `int8` value the arithmetic right shift by
4 and the second the arithmetic right shift by 4 of the value shifted left
by 4 with 8-bit wrap-around. -/
theorem C3_decode4_semantics (bs : List Int) :
    (decode4 bs).length = 2 * bs.length ∧
    ∀ i, i < bs.length →
      (decode4 bs).getD (2 * i) 0 = shift4 (bs.getD i 0) ∧
      (decode4 bs).getD (2 * i + 1) 0 = shift4 (wrap8 (bs.getD i 0 * 16)) := by
  induction bs with
  | nil => exact ⟨rfl, fun i hi => absurd hi (by simp)⟩
  | cons b t ih =>
    rw [decode4_cons]
    constructor
    · simp only [List.length_cons, ih.1]
      omega
    · intro i hi
      cases i with
      | zero => exact ⟨rfl, rfl⟩
      | succ j =>
        have hj : j < t.length := by simpa using hi
        have h2 : 2 * (j + 1) = 2 * j + 1 + 1 := by ring
        rw [h2]
        simp only [List.getD_cons_succ]
        exact ⟨(ih.2 j hj).1, (ih.2 j hj).2⟩

/-- C3 witness at the byte `0xAB` (`int8` value `-85`): the high nibble
decodes to `-6` and the low nibble to `-5`. -/
theorem C3_decode4_semantics_witness :
    0 < ([(-85 : Int)] : List Int).length ∧
    (decode4 [(-85 : Int)]).getD (2 * 0) 0 = shift4 (([(-85 : Int)] : List Int).getD 0 0) ∧
    (decode4 [(-85 : Int)]).getD (2 * 0 + 1) 0
      = shift4 (wrap8 (([(-85 : Int)] : List Int).getD 0 0 * 16)) :=
  ⟨by decide, ((C3_decode4_semantics [(-85 : Int)]).2 0 (by decide)).1,
    ((C3_decode4_semantics [(-85 : Int)]).2 0 (by decide)).2⟩

/-- C9 (implicit): card parsing splits at the first `'='` and strips both
sides, so the `(key, value)` pair is independent of the column of `'='`
(`a`, `b`, `c` arbitrary padding widths) and later `'='` characters stay
in the value (`V` is unconstrained). -/
theorem C9_delimiter_tolerance (K V : List Char) (a b c : Nat) (hv : HVal)
    (hK : '=' ∉ K) (hKw : noEdgeWS K = true) (hVw : noEdgeWS V = true)
    (hpv : parse_header_value V = .ok hv) :
    parse_header_entry ((K ++ List.replicate a ' ')
      ++ '=' :: (List.replicate b ' ' ++ (V ++ List.replicate c ' ')))
      = .ok (K, hv) := by
  unfold parse_header_entry
  have hmem : '=' ∉ K ++ List.replicate a ' ' := by
    intro hm
    rcases List.mem_append.mp hm with h1 | h1
    · exact hK h1
    · have h2 := List.eq_of_mem_replicate h1
      simp at h2
  rw [splitFirstEq_append _ _ hmem]
  simp only
  have hstrip : pyStrip (List.replicate b ' ' ++ (V ++ List.replicate c ' ')) = V := by
    rw [← List.append_assoc]
    exact pyStrip_pad b c V hVw
  rw [hstrip, pyStrip_pad_right _ _ hKw, hpv]

/-- C9 witness: a key padded to an arbitrary column and a quoted value
containing a later `'='`. -/
theorem C9_delimiter_tolerance_witness :
    '=' ∉ ['K', 'E', 'Y'] ∧
    parse_header_entry ((['K', 'E', 'Y'] ++ List.replicate 1 ' ')
      ++ '=' :: (List.replicate 2 ' '
        ++ ((quoteChar :: ('A' :: '=' :: 'B' :: [quoteChar])) ++ List.replicate 3 ' ')))
      = .ok (['K', 'E', 'Y'], .s ['A', '=', 'B']) :=
  ⟨by decide,
    C9_delimiter_tolerance ['K', 'E', 'Y'] (quoteChar :: ('A' :: '=' :: 'B' :: [quoteChar]))
      1 2 3 (.s ['A', '=', 'B']) (by decide) (by decide) (by decide) rfl⟩

/-- C10 (implicit): `blocks()` resets the sequencer before yielding
anything, so its result does not depend on how far a previous iteration
had advanced the file index or the open handle, and on a non-empty path
list it restarts from position 0 of the first file. -/
theorem C10_blocks_restart (paths : List (List Nat)) (i i2 : Nat)
    (hd hd2 : Option Nat) (fuel : Nat) :
    GuppiHandler.blocks ⟨paths, i, hd⟩ fuel = GuppiHandler.blocks ⟨paths, i2, hd2⟩ fuel
    ∧ (paths ≠ [] →
      GuppiHandler.blocks ⟨paths, i, hd⟩ fuel
        = GuppiHandler.blocksLoop fuel ⟨paths, 0, some 0⟩ none []) := by
  constructor
  · rfl
  · intro hne
    exact blocks_open paths hne i hd fuel

/-- C10 witness: a previously advanced handler restarts identically. -/
theorem C10_blocks_restart_witness :
    ([[0]] : List (List Nat)) ≠ [] ∧
    GuppiHandler.blocks ⟨[[0]], 3, some 2⟩ 1
      = GuppiHandler.blocksLoop 1 ⟨[[0]], 0, some 0⟩ none [] :=
  ⟨by decide, (C10_blocks_restart [[0]] 3 0 (some 2) none 1).2 (by decide)⟩

/-- C8: header value typing tries `int()`, then `float()`, then requires
enclosing single quotes (stripped, with inner whitespace trimmed by the
outer strip); a value that fails all three, and a card read shorter than
80 ASCII bytes, both surface as `MalformedHeaderValue`. -/
theorem C8_value_typing_precedence :
    (∀ v : List Char, ∀ n : Int,
      pyInt v = some n → parse_header_value v = .ok (.i n)) ∧
    (∀ v : List Char, ∀ q : ℚ, pyInt v = none → pyFloat v = some q →
      parse_header_value v = .ok (.f q)) ∧
    (∀ v : List Char, pyInt v = none → pyFloat v = none →
      v.head? = some quoteChar → v.getLast? = some quoteChar →
      parse_header_value v = .ok (.s (pyStrip (v.drop 1).dropLast))) ∧
    (∀ v : List Char, pyInt v = none → pyFloat v = none →
      ¬(v.head? = some quoteChar ∧ v.getLast? = some quoteChar) →
      parse_header_value v = .error .malformedHeaderValue) ∧
    (∀ s : GuppiHandler, 0 < (dropCur s).length → (dropCur s).length < 80 →
      (∀ x ∈ dropCur s, x < 128) →
      s.read_header_entry = .fatal .malformedHeaderValue) := by
  refine ⟨?_, ?_, ?_, ?_, ?_⟩
  · intro v n hint
    unfold parse_header_value
    rw [hint]
  · intro v q hint hfl
    unfold parse_header_value
    rw [hint, hfl]
  · intro v hint hfl hh hl
    unfold parse_header_value
    rw [hint, hfl, if_pos ⟨hh, hl⟩]
  · intro v hint hfl hq
    unfold parse_header_value
    rw [hint, hfl, if_neg hq]
  · intro s h1 h2 hascii
    unfold GuppiHandler.read_header_entry GuppiHandler.read
    have htake : (s.curFile.drop s.pos).take 80 = dropCur s :=
      List.take_of_length_le (le_of_lt h2)
    simp only [htake]
    have hall : ((dropCur s).all fun b => decide (b < 128)) = true := by
      rw [List.all_eq_true]
      intro x hx
      exact decide_eq_true (hascii x hx)
    rw [if_pos hall, if_neg (by omega : ¬ (dropCur s).length = 0), if_pos h2]

/-- C8 witness: the unquoted non-numeric value `ab` is rejected, at a
handler whose remaining file holds a single short ASCII card. -/
theorem C8_value_typing_precedence_witness :
    pyInt ['a', 'b'] = none ∧ pyFloat ['a', 'b'] = none ∧
    ¬((['a', 'b'] : List Char).head? = some quoteChar
      ∧ (['a', 'b'] : List Char).getLast? = some quoteChar) ∧
    parse_header_value ['a', 'b'] = .error .malformedHeaderValue ∧
    GuppiHandler.read_header_entry ⟨[[65, 66, 67]], 0, some 0⟩
      = .fatal .malformedHeaderValue :=
  ⟨by decide, by decide, by decide,
    C8_value_typing_precedence.2.2.2.1 ['a', 'b'] (by decide) (by decide) (by decide),
    C8_value_typing_precedence.2.2.2.2 ⟨[[65, 66, 67]], 0, some 0⟩
      (by decide) (by decide) (by decide)⟩

/-- C6: a two-block sequence whose second block's derived shape
`(A2, F2, T2, P2)` differs from the first block's `(A, F, T, P)` stops
with `InconsistentBlockShape` after exactly one yielded `(header, data)`
pair. -/
theorem C6_shape_fault_after_one_block (base : GuppiRawHeader)
    (A F T P A2 F2 T2 P2 : Nat) (ps1 ps2 : List (Int × Int))
    (hA : 0 < A) (hF : 0 < F) (hT : 0 < T) (hP : 0 < P) (hPol : P = 1 ∨ P = 2)
    (hA2 : 0 < A2) (hF2 : 0 < F2) (hT2 : 0 < T2) (hP2 : 0 < P2)
    (hbound : A * F * T * P < 10 ^ 17) (hbound2 : A2 * F2 * T2 * P2 < 10 ^ 17)
    (hdio : base.directio = false)
    (htel1 : noEdgeWS base.telescope = true) (htel2 : asciiChars base.telescope = true)
    (htel3 : base.telescope.length ≤ 68)
    (hlen1 : ps1.length = A * F * T * P) (hrange1 : pairsRange8 ps1)
    (hlen2 : ps2.length = A2 * F2 * T2 * P2)
    (hne : (A2, F2, T2, P2) ≠ (A, F, T, P))
    (i0 fuel : Nat) (h0 : Option Nat) :
    GuppiHandler.blocks
      ⟨[writeFileContents base [mkDb8 A F T P ps1, mkDb8 A2 F2 T2 P2 ps2]], i0, h0⟩
      (fuel + 2)
      = ([(GuppiHandler.write_header_fields base (mkDb8 A F T P ps1), ps1)],
          some .inconsistentBlockShape) :=
  written8_then_shape_fault base A F T P A2 F2 T2 P2 ps1 ps2 hA hF hT hP hPol
    hA2 hF2 hT2 hP2 hbound hbound2 hdio htel1 htel2 htel3 hlen1 hrange1 hlen2 hne
    i0 fuel h0

/-- C6 witness: first block shape `(1,1,1,1)`, second `(1,1,2,1)`. -/
theorem C6_shape_fault_after_one_block_witness :
    (0 < 1 ∧ ((1 : Nat) = 1 ∨ (1 : Nat) = 2) ∧ ((1, 1, 2, 1) : Nat × Nat × Nat × Nat) ≠ (1, 1, 1, 1)) ∧
    GuppiHandler.blocks
      ⟨[writeFileContents ⟨['X'], false, 0, 0, 0, 0, 0⟩
        [mkDb8 1 1 1 1 [(1, -2)], mkDb8 1 1 2 1 [(0, 0), (0, 0)]]], 0, none⟩
      (0 + 2)
      = ([(GuppiHandler.write_header_fields ⟨['X'], false, 0, 0, 0, 0, 0⟩
            (mkDb8 1 1 1 1 [(1, -2)]), [(1, -2)])],
          some .inconsistentBlockShape) :=
  ⟨⟨by decide, by decide, by decide⟩,
    C6_shape_fault_after_one_block ⟨['X'], false, 0, 0, 0, 0, 0⟩
      1 1 1 1 1 1 2 1 [(1, -2)] [(0, 0), (0, 0)]
      (by decide) (by decide) (by decide) (by decide) (by decide)
      (by decide) (by decide) (by decide) (by decide)
      (by decide) (by decide) rfl (by decide) (by decide) (by decide)
      (by decide) (by unfold pairsRange8; decide) (by decide) (by decide) 0 0 none⟩

/-- C4: packing real/imaginary components drawn from `[-8, 7]` into
nibble pairs and reading them back through `blocks()` reproduces
bit-exact values across any number of blocks and files, with every
yielded header reporting `nof_bits = 4` and the written blockshape. -/
theorem C4_round_trip_4bit
    (base : GuppiRawHeader) (A F T P : Nat)
    (groups : List (List (List (Int × Int))))
    (hA : 0 < A) (hF : 0 < F) (hT : 0 < T) (hP : 0 < P) (hPol : P = 1 ∨ P = 2)
    (hbound : A * F * T * P < 10 ^ 17)
    (hdio : base.directio = false)
    (htel1 : noEdgeWS base.telescope = true) (htel2 : asciiChars base.telescope = true)
    (htel3 : base.telescope.length ≤ 68)
    (hgne : groups ≠ []) (hgroups_ne : ∀ g ∈ groups, g ≠ [])
    (hps : ∀ g ∈ groups, ∀ ps ∈ g, ps.length = A * F * T * P ∧ pairsRange4 ps)
    (i0 : Nat) (h0 : Option Nat) :
    GuppiHandler.blocks
      ⟨groups.map (fun g => writeFileContents base (g.map (mkDb4 A F T P))), i0, h0⟩
      (groups.flatten.length + 1)
      = (groups.flatten.map (fun ps =>
          (GuppiHandler.write_header_fields base (mkDb4 A F T P ps), ps)), none)
    ∧ ∀ ps ∈ groups.flatten,
        (GuppiHandler.write_header_fields base (mkDb4 A F T P ps)).nof_bits = 4
        ∧ (GuppiHandler.write_header_fields base (mkDb4 A F T P ps)).blockshape
            = (A, F, T, P) := by
  constructor
  · exact guppi_blocks_written_family base (A, F, T, P) (mkDb4 A F T P)
      (fun ps => ps.length = A * F * T * P ∧ pairsRange4 ps) expected4
      (fun ps hc => good4_wf hA hF hT hP hbound htel1 htel2 htel3 hc.1)
      (fun ps hc => good4_shape hA hF hT hP hc.1)
      (fun ps hc => good4_validate hA hF hT hP hPol hc.1)
      (fun ps hc => good4_read_block hA hF hT hP hdio hc.1 hc.2)
      (fun ps hc => expected4_mkDb4 hc.2)
      hdio groups hgne hgroups_ne hps i0 h0
  · intro ps hmem
    rw [List.mem_flatten] at hmem
    obtain ⟨g, hg, hpg⟩ := hmem
    have hc := hps g hg ps hpg
    exact ⟨good4_bits hA hF hT hP hc.1, good4_shape hA hF hT hP hc.1⟩

/-- C4 witness: one nibble-packed block with components `(3, -2)`. -/
theorem C4_round_trip_4bit_witness :
    (0 < 1 ∧ ([[[((3 : Int), (-2 : Int))]]] : List (List (List (Int × Int)))) ≠ []) ∧
    (GuppiHandler.blocks
      ⟨[[[((3 : Int), (-2 : Int))]]].map
        (fun g => writeFileContents ⟨['X'], false, 0, 0, 0, 0, 0⟩ (g.map (mkDb4 1 1 1 1))),
        0, none⟩
      ([[[((3 : Int), (-2 : Int))]]].flatten.length + 1)
      = ([[[((3 : Int), (-2 : Int))]]].flatten.map (fun ps =>
          (GuppiHandler.write_header_fields ⟨['X'], false, 0, 0, 0, 0, 0⟩
            (mkDb4 1 1 1 1 ps), ps)), none)
    ∧ ∀ ps ∈ [[[((3 : Int), (-2 : Int))]]].flatten,
        (GuppiHandler.write_header_fields ⟨['X'], false, 0, 0, 0, 0, 0⟩
          (mkDb4 1 1 1 1 ps)).nof_bits = 4
        ∧ (GuppiHandler.write_header_fields ⟨['X'], false, 0, 0, 0, 0, 0⟩
            (mkDb4 1 1 1 1 ps)).blockshape = (1, 1, 1, 1)) :=
  ⟨⟨by decide, by decide⟩,
    C4_round_trip_4bit ⟨['X'], false, 0, 0, 0, 0, 0⟩ 1 1 1 1 [[[((3 : Int), (-2 : Int))]]]
      (by decide) (by decide) (by decide) (by decide) (by decide) (by decide) rfl
      (by decide) (by decide) (by decide) (by decide)
      (by intro g hg; fin_cases hg; decide)
      (by
        intro g hg ps hp
        fin_cases hg
        fin_cases hp
        exact ⟨rfl, by unfold pairsRange4; decide⟩)
      0 none⟩

/-- C1 (amended): writing blocks of shape `(A, F, T, P)` with 8-bit signed
components across one or several files and reading them back through
`blocks()` reproduces identical sample values in identical order,
including the multi-file rollover case, each yielded header carrying the
written blockshape and bit depth; depth 8 is the only multi-byte depth
the reader accepts, so the spec's 16/32-bit round trips do not hold (see
the counterexample). -/
theorem C1_round_trip_8bit
    (base : GuppiRawHeader) (A F T P : Nat)
    (groups : List (List (List (Int × Int))))
    (hA : 0 < A) (hF : 0 < F) (hT : 0 < T) (hP : 0 < P) (hPol : P = 1 ∨ P = 2)
    (hbound : A * F * T * P < 10 ^ 17)
    (hdio : base.directio = false)
    (htel1 : noEdgeWS base.telescope = true) (htel2 : asciiChars base.telescope = true)
    (htel3 : base.telescope.length ≤ 68)
    (hgne : groups ≠ []) (hgroups_ne : ∀ g ∈ groups, g ≠ [])
    (hps : ∀ g ∈ groups, ∀ ps ∈ g, ps.length = A * F * T * P ∧ pairsRange8 ps)
    (i0 : Nat) (h0 : Option Nat) :
    GuppiHandler.blocks
      ⟨groups.map (fun g => writeFileContents base (g.map (mkDb8 A F T P))), i0, h0⟩
      (groups.flatten.length + 1)
      = (groups.flatten.map (fun ps =>
          (GuppiHandler.write_header_fields base (mkDb8 A F T P ps), ps)), none)
    ∧ ∀ ps ∈ groups.flatten,
        (GuppiHandler.write_header_fields base (mkDb8 A F T P ps)).blockshape
            = (A, F, T, P)
        ∧ (GuppiHandler.write_header_fields base (mkDb8 A F T P ps)).nof_bits = 8 := by
  constructor
  · exact guppi_blocks_written_8bit base A F T P groups hA hF hT hP hPol hbound hdio
      htel1 htel2 htel3 hgne hgroups_ne hps i0 h0
  · intro ps hmem
    rw [List.mem_flatten] at hmem
    obtain ⟨g, hg, hpg⟩ := hmem
    have hc := hps g hg ps hpg
    exact ⟨good8_shape hA hF hT hP hc.1, good8_bits hA hF hT hP hc.1⟩

/-- C1 witness: two 8-bit blocks split across two files roll over and
read back in order. -/
theorem C1_round_trip_8bit_witness :
    (0 < 1 ∧ ([[[((1 : Int), (-2 : Int))]], [[((-128 : Int), (127 : Int))]]]
      : List (List (List (Int × Int)))) ≠ []) ∧
    (GuppiHandler.blocks
      ⟨[[[((1 : Int), (-2 : Int))]], [[((-128 : Int), (127 : Int))]]].map
        (fun g => writeFileContents ⟨['X'], false, 0, 0, 0, 0, 0⟩ (g.map (mkDb8 1 1 1 1))),
        0, none⟩
      ([[[((1 : Int), (-2 : Int))]], [[((-128 : Int), (127 : Int))]]].flatten.length + 1)
      = ([[[((1 : Int), (-2 : Int))]], [[((-128 : Int), (127 : Int))]]].flatten.map
          (fun ps => (GuppiHandler.write_header_fields ⟨['X'], false, 0, 0, 0, 0, 0⟩
            (mkDb8 1 1 1 1 ps), ps)), none)
    ∧ ∀ ps ∈ [[[((1 : Int), (-2 : Int))]], [[((-128 : Int), (127 : Int))]]].flatten,
        (GuppiHandler.write_header_fields ⟨['X'], false, 0, 0, 0, 0, 0⟩
          (mkDb8 1 1 1 1 ps)).blockshape = (1, 1, 1, 1)
        ∧ (GuppiHandler.write_header_fields ⟨['X'], false, 0, 0, 0, 0, 0⟩
            (mkDb8 1 1 1 1 ps)).nof_bits = 8) :=
  ⟨⟨by decide, by decide⟩,
    C1_round_trip_8bit ⟨['X'], false, 0, 0, 0, 0, 0⟩ 1 1 1 1
      [[[((1 : Int), (-2 : Int))]], [[((-128 : Int), (127 : Int))]]]
      (by decide) (by decide) (by decide) (by decide) (by decide) (by decide) rfl
      (by decide) (by decide) (by decide) (by decide)
      (by intro g hg; fin_cases hg <;> decide)
      (by
        intro g hg ps hp
        fin_cases hg <;> fin_cases hp <;>
          exact ⟨rfl, by unfold pairsRange8; decide⟩)
      0 none⟩

/-- C1 counterexample: a block written with 16-bit components is rejected
at first-block validation — `blocks()` yields nothing and stops with
`UnsupportedBitDepth`, so the claimed 16-bit (and likewise 32-bit) round
trip fails. -/
theorem C1_round_trip_8bit_counterexample :
    GuppiHandler.blocks
      ⟨[writeFileContents ⟨['X'], false, 0, 0, 0, 0, 0⟩ [mkDb16 1 1 1 1 [(1, -2)]]],
        0, none⟩ (0 + 1)
      = ([], some .unsupportedBitDepth) :=
  written16_first_fault ⟨['X'], false, 0, 0, 0, 0, 0⟩ 1 1 1 1 [(1, -2)]
    (by decide) (by decide) (by decide) (by decide) (by decide) rfl
    (by decide) (by decide) (by decide) (by decide) 0 0 none

/-- C7 (amended): first-block validation fails with `UnsupportedBitDepth`
exactly when `nof_bits ∉ {4, 8}` (not the spec's `{4, 8, 16, 32}`), with
`UnsupportedPolarizationCount` exactly when the bit depth is accepted but
`nof_polarizations ∉ {1, 2}`, and passes exactly when both are in range;
and validation runs only on the first block — a later block declaring the
unsupported depth 16 stops the iteration with a lookup fault (`KeyError`
on the dtype map), not with either validation fault. -/
theorem C7_first_block_validation :
    (∀ h : GuppiRawHeader,
      (GuppiHandler.validate_header h = some .unsupportedBitDepth
        ↔ ¬(h.nof_bits = 4 ∨ h.nof_bits = 8)) ∧
      (GuppiHandler.validate_header h = some .unsupportedPolarizationCount
        ↔ ((h.nof_bits = 4 ∨ h.nof_bits = 8)
            ∧ ¬(h.nof_polarizations = 1 ∨ h.nof_polarizations = 2))) ∧
      (GuppiHandler.validate_header h = none
        ↔ ((h.nof_bits = 4 ∨ h.nof_bits = 8)
            ∧ (h.nof_polarizations = 1 ∨ h.nof_polarizations = 2)))) ∧
    (∀ (base : GuppiRawHeader) (A F T P : Nat) (ps1 ps2 : List (Int × Int))
      (i0 fuel : Nat) (h0 : Option Nat),
      0 < A → 0 < F → 0 < T → 0 < P → (P = 1 ∨ P = 2) →
      A * F * T * P < 10 ^ 17 → base.directio = false →
      noEdgeWS base.telescope = true → asciiChars base.telescope = true →
      base.telescope.length ≤ 68 →
      ps1.length = A * F * T * P → pairsRange8 ps1 →
      ps2.length = A * F * T * P →
      GuppiHandler.blocks
        ⟨[writeFileContents base [mkDb8 A F T P ps1, mkDb16 A F T P ps2]], i0, h0⟩
        (fuel + 2)
        = ([(GuppiHandler.write_header_fields base (mkDb8 A F T P ps1), ps1)],
            some .keyError)
      ∧ GuppiError.keyError ≠ GuppiError.unsupportedBitDepth
      ∧ GuppiError.keyError ≠ GuppiError.unsupportedPolarizationCount) := by
  constructor
  · intro h
    unfold GuppiHandler.validate_header
    by_cases hb : (h.nof_bits = 4 ∨ h.nof_bits = 8) <;>
      by_cases hp : (h.nof_polarizations = 1 ∨ h.nof_polarizations = 2) <;>
      simp [hb, hp]
  · intro base A F T P ps1 ps2 i0 fuel h0 hA hF hT hP hPol hbound hdio
      htel1 htel2 htel3 hlen1 hrange1 hlen2
    exact ⟨written8_then_16_keyError base A F T P ps1 ps2 hA hF hT hP hPol hbound
      hdio htel1 htel2 htel3 hlen1 hrange1 hlen2 i0 fuel h0, by decide, by decide⟩

/-- C7 counterexample: a header with `nof_bits = 16` — a member of the
spec's accepted set `{4, 8, 16, 32}` — is rejected by validation with
`UnsupportedBitDepth`. -/
theorem C7_first_block_validation_counterexample :
    GuppiHandler.validate_header ⟨[], false, 16, 2, 1, 1, 64⟩
      = some .unsupportedBitDepth
    ∧ ((16 : Nat) = 4 ∨ (16 : Nat) = 8 ∨ (16 : Nat) = 16 ∨ (16 : Nat) = 32) :=
  ⟨by decide, by decide⟩

/-- C7 witness: the bit-depth characterization at `nof_bits = 3`, and the
once-only scenario at a concrete two-block file whose second block is
16-bit. -/
theorem C7_first_block_validation_witness :
    (GuppiHandler.validate_header ⟨[], false, 3, 1, 1, 1, 1⟩
        = some .unsupportedBitDepth
      ↔ ¬((3 : Nat) = 4 ∨ (3 : Nat) = 8)) ∧
    (0 < 1 ∧
      GuppiHandler.blocks
        ⟨[writeFileContents ⟨['X'], false, 0, 0, 0, 0, 0⟩
          [mkDb8 1 1 1 1 [(1, -2)], mkDb16 1 1 1 1 [(0, 0)]]], 0, none⟩ (0 + 2)
        = ([(GuppiHandler.write_header_fields ⟨['X'], false, 0, 0, 0, 0, 0⟩
              (mkDb8 1 1 1 1 [(1, -2)]), [(1, -2)])], some .keyError)
      ∧ GuppiError.keyError ≠ GuppiError.unsupportedBitDepth
      ∧ GuppiError.keyError ≠ GuppiError.unsupportedPolarizationCount) :=
  ⟨(C7_first_block_validation.1 ⟨[], false, 3, 1, 1, 1, 1⟩).1,
    ⟨by decide,
      C7_first_block_validation.2 ⟨['X'], false, 0, 0, 0, 0, 0⟩ 1 1 1 1
        [(1, -2)] [(0, 0)] 0 0 none
        (by decide) (by decide) (by decide) (by decide) (by decide) (by decide) rfl
        (by decide) (by decide) (by decide) (by decide)
        (by unfold pairsRange8; decide) (by decide)⟩⟩

theorem seek_align_directio_pos (s : GuppiHandler) :
    s.seek_align_directio.pos = s.pos + (512 - s.pos % 512) % 512 := by
  show (if s.pos % 512 = 0 then s else s.seek (512 - s.pos % 512)).pos
    = s.pos + (512 - s.pos % 512) % 512
  by_cases hr : s.pos % 512 = 0
  · rw [if_pos hr]
    omega
  · rw [if_neg hr]
    have hpos : (s.seek (512 - s.pos % 512)).pos = s.pos + (512 - s.pos % 512) := rfl
    rw [hpos]
    have hlt : s.pos % 512 < 512 := Nat.mod_lt s.pos (by norm_num)
    omega

theorem write_chunk_true {base : GuppiRawHeader} (db : DataBlock)
    (hdio : base.directio = true) :
    GuppiHandler.write_chunk base db
      = (((GuppiHandler.write_header_fields base db).to_fits.map Char.toNat)
          ++ List.replicate
            (padLen512 (((GuppiHandler.write_header_fields base db).to_fits.map
              Char.toNat).length)) ('*'.toNat))
        ++ (dataBytes db
          ++ List.replicate (padLen512 (dataBytes db).length) (' '.toNat)) := by
  have hstar : '*'.toNat = 42 := rfl
  have hsp : ' '.toNat = 32 := rfl
  rw [hstar, hsp]
  unfold GuppiHandler.write_chunk
  have hd : (GuppiHandler.write_header_fields base db).directio = true := by
    rw [(whf_fields base db).2.1]
    exact hdio
  simp [hd, List.append_assoc]

theorem write_chunk_length_directio {base : GuppiRawHeader} (db : DataBlock)
    (hdio : base.directio = true) :
    (GuppiHandler.write_chunk base db).length % 512 = 0 := by
  rw [write_chunk_true db hdio]
  simp only [List.length_append, List.length_replicate, List.length_map]
  unfold padLen512
  omega

theorem chunk_prefix_sum_mod {base : GuppiRawHeader} (hdio : base.directio = true)
    (l : List DataBlock) :
    ((l.map (fun d => (GuppiHandler.write_chunk base d).length)).sum) % 512 = 0 := by
  induction l with
  | nil => rfl
  | cons d t ih =>
    rw [List.map_cons, List.sum_cons]
    have h1 := write_chunk_length_directio d hdio
    omega

/-- C5: the write-side filler length realizes the gap formula
`(512 - offset % 512) % 512`; the read-side alignment seek advances the
position by exactly that gap onto a 512-byte boundary; with `directio`
set, each written chunk is header text padded to 512 with `'*'` bytes
followed by data padded to 512 with space bytes, so in a file of such
chunks every header-start offset (a prefix sum of chunk lengths) and
every data-start offset is a multiple of 512; with `directio` clear no
filler is emitted, an aligned position is left unchanged, and reading a
header advances exactly 640 bytes with no skip (the skip runs exactly
when the decoded header has `directio` set). -/
theorem C5_directio_alignment (base : GuppiRawHeader) (db : DataBlock)
    (s : GuppiHandler) :
    (∀ n : Nat, padLen512 n = (512 - n % 512) % 512) ∧
    (s.seek_align_directio.pos = s.pos + (512 - s.pos % 512) % 512
      ∧ s.seek_align_directio.pos % 512 = 0) ∧
    (base.directio = true →
      GuppiHandler.write_chunk base db
        = (((GuppiHandler.write_header_fields base db).to_fits.map Char.toNat)
            ++ List.replicate
              (padLen512 (((GuppiHandler.write_header_fields base db).to_fits.map
                Char.toNat).length)) ('*'.toNat))
          ++ (dataBytes db
            ++ List.replicate (padLen512 (dataBytes db).length) (' '.toNat))) ∧
    (base.directio = true → ∀ (dbs : List DataBlock) (k : Nat),
      (((dbs.take k).map (fun d => (GuppiHandler.write_chunk base d).length)).sum) % 512
        = 0
      ∧ ((((dbs.take k).map (fun d => (GuppiHandler.write_chunk base d).length)).sum
          + ((GuppiHandler.write_header_fields base db).to_fits.length
            + padLen512 (GuppiHandler.write_header_fields base db).to_fits.length))
          % 512 = 0)) ∧
    (base.directio = false →
      GuppiHandler.write_chunk base db
        = ((GuppiHandler.write_header_fields base db).to_fits.map Char.toNat)
          ++ dataBytes db
      ∧ (s.pos % 512 = 0 → s.seek_align_directio = s)) ∧
    (∀ (h : GuppiRawHeader) (rest : List Nat), HWf h →
      dropCur s = h.to_fits.map Char.toNat ++ rest →
      (h.directio = true →
        s.read_next_header = .ok (h, (advance s 640).seek_align_directio))
      ∧ (h.directio = false →
        s.read_next_header = .ok (h, advance s 640))) := by
  refine ⟨?_, ⟨seek_align_directio_pos s, ?_⟩, ?_, ?_, ?_, ?_⟩
  · intro n
    unfold padLen512
    omega
  · rw [seek_align_directio_pos s]
    have hlt : s.pos % 512 < 512 := Nat.mod_lt s.pos (by norm_num)
    omega
  · intro hdio
    exact write_chunk_true db hdio
  · intro hdio dbs k
    have h1 := chunk_prefix_sum_mod hdio (dbs.take k)
    refine ⟨h1, ?_⟩
    unfold padLen512
    omega
  · intro hdio
    refine ⟨write_chunk_false db hdio, ?_⟩
    intro hp
    show (if s.pos % 512 = 0 then s else s.seek (512 - s.pos % 512)) = s
    rw [if_pos hp]
  · intro h rest hwf hdrop
    constructor
    · intro hdio
      rw [read_next_header_at_header hwf hdrop, if_pos hdio]
    · intro hdio
      rw [read_next_header_at_header hwf hdrop, if_neg (by simp [hdio])]

/-- C5 witness: the gap formula at offset 5, the starred/padded chunk of
a concrete `directio` header, an aligned prefix sum, and a concrete
read-side alignment seek after a decoded `directio` header. -/
theorem C5_directio_alignment_witness :
    padLen512 5 = (512 - 5 % 512) % 512 ∧
    GuppiHandler.write_chunk ⟨['X'], true, 0, 0, 0, 0, 0⟩ (mkDb8 1 1 1 1 [(1, -2)])
      = (((GuppiHandler.write_header_fields ⟨['X'], true, 0, 0, 0, 0, 0⟩
            (mkDb8 1 1 1 1 [(1, -2)])).to_fits.map Char.toNat)
          ++ List.replicate
            (padLen512 (((GuppiHandler.write_header_fields ⟨['X'], true, 0, 0, 0, 0, 0⟩
              (mkDb8 1 1 1 1 [(1, -2)])).to_fits.map Char.toNat).length)) ('*'.toNat))
        ++ (dataBytes (mkDb8 1 1 1 1 [(1, -2)])
          ++ List.replicate (padLen512 (dataBytes (mkDb8 1 1 1 1 [(1, -2)])).length)
            (' '.toNat)) ∧
    (([mkDb8 1 1 1 1 [(1, -2)]].take 1).map
      (fun d => (GuppiHandler.write_chunk ⟨['X'], true, 0, 0, 0, 0, 0⟩ d).length)).sum
      % 512 = 0 ∧
    GuppiHandler.read_next_header
      ⟨[(⟨['X'], true, 0, 0, 0, 0, 0⟩ : GuppiRawHeader).to_fits.map Char.toNat], 0, some 0⟩
      = .ok (⟨['X'], true, 0, 0, 0, 0, 0⟩,
          (advance ⟨[(⟨['X'], true, 0, 0, 0, 0, 0⟩
            : GuppiRawHeader).to_fits.map Char.toNat], 0, some 0⟩
            640).seek_align_directio) :=
  ⟨(C5_directio_alignment ⟨['X'], true, 0, 0, 0, 0, 0⟩ (mkDb8 1 1 1 1 [(1, -2)])
      ⟨[[0]], 0, some 0⟩).1 5,
    (C5_directio_alignment ⟨['X'], true, 0, 0, 0, 0, 0⟩ (mkDb8 1 1 1 1 [(1, -2)])
      ⟨[[0]], 0, some 0⟩).2.2.1 rfl,
    ((C5_directio_alignment ⟨['X'], true, 0, 0, 0, 0, 0⟩ (mkDb8 1 1 1 1 [(1, -2)])
      ⟨[[0]], 0, some 0⟩).2.2.2.1 rfl [mkDb8 1 1 1 1 [(1, -2)]] 1).1,
    ((C5_directio_alignment ⟨['X'], true, 0, 0, 0, 0, 0⟩ (mkDb8 1 1 1 1 [(1, -2)])
      ⟨[(⟨['X'], true, 0, 0, 0, 0, 0⟩ : GuppiRawHeader).to_fits.map Char.toNat], 0,
        some 0⟩).2.2.2.2.2 ⟨['X'], true, 0, 0, 0, 0, 0⟩ [] (by decide)
      (by rw [List.append_nil]; rfl)).1 rfl⟩
